import Mathlib

/-!
Verification of the localzone Zone/Record model against its specification.

The development shallowly embeds `localzone/util.py` (Fletcher checksum) and
`localzone/models.py` (the Zone store with its CRUD protocol) as executable
Lean definitions, and proves the specified properties about them.  The
dnspython collaborators (name arithmetic, the rdata codec, the rdataset
container discipline) are external to the repository; they are modelled
from the spec where the operations depend on them, as noted on each
definition.
-/

namespace Localzone

/-! ## util.py -/

/-- Hexadecimal rendering of a natural number, lowercase, as Python's
`format(x, "x")` produces. -/
def toHex (n : Nat) : String :=
  String.mk (Nat.toDigits 16 n)

/-- Left-pad a string with zeros to the given width (Python `str.zfill`). -/
def zfill (s : String) (width : Nat) : String :=
  if s.length < width then String.mk (List.replicate (width - s.length) '0') ++ s else s

/-- Fuel-indexed block splitter; the fuel (an upper bound on the list
length) only makes the recursion structural and never runs out when the
list length is supplied. -/
def groupGo : Nat → List Nat → Nat → Nat → List (List Nat)
  | _, _, 0, _ => []
  | _, [], _ + 1, _ => []
  | 0, _ :: _, _ + 1, _ => []
  | fuel + 1, x :: xs, n + 1, pad =>
    if (x :: xs).length ≤ n + 1 then
      [(x :: xs) ++ List.replicate (n + 1 - (x :: xs).length) pad]
    else (x :: xs).take (n + 1) :: groupGo fuel ((x :: xs).drop (n + 1)) (n + 1) pad

/-- Embeds `util.group`: split a list into blocks of `n` items, padding the
last block with `pad`.  This is the observable behaviour of the Python
`zip(*[chain(iterable, repeat(padvalue, n - 1))] * n)` idiom: with `n = 0`
the zip of zero iterators is empty; otherwise the data is cut into
`ceil(len/n)` blocks and the final block is padded. -/
def group (l : List Nat) (n pad : Nat) : List (List Nat) := groupGo l.length l n pad

/-- Embeds `util.pack`: fold the 8-bit values into one little-endian
integer, `result = tup[i] << (i * 8) | result`. -/
def pack (tup : List Nat) : Nat :=
  tup.enum.foldl (fun result p => p.2 <<< (p.1 * 8) ||| result) 0

/-- Embeds the body of `util.checksum` (any `size`; the Python wrapper
rejects sizes outside 16/32/64 before reaching this computation).
`word.data.map Char.toNat` is Python's `map(ord, word)`. -/
def checksumCore (word : String) (size : Nat) : String :=
  let bits := size / 2
  let blockSize := bits / 8
  let modulus := 2 ^ bits - 1
  let ords := word.data.map Char.toNat
  let blocks := if size = 16 then ords else (group ords blockSize 0).map pack
  let ab := blocks.foldl (fun (ab : Nat × Nat) block => (ab.1 + block, ab.2 + ab.1 + block)) (0, 0)
  zfill (toHex ((ab.2 % modulus) <<< bits ||| (ab.1 % modulus))) 4

/-- Embeds `util.checksum`: `none` models the `ValueError` raised for a
size outside {16, 32, 64}. -/
def checksum (word : String) (size : Nat) : Option String :=
  if size = 16 ∨ size = 32 ∨ size = 64 then some (checksumCore word size) else none

/-! Specification-side restatement of Fletcher's checksum, following the
spec's words: blocks are packed little-endian (a block `[b0, b1, ...]`
has value `b0 + 256 * b1 + ...`), `a` is the running sum and `b` the
running sum of sums, both reduced modulo `2 ^ (size/2) - 1`, and the
output is `(b << size/2) | a` in zero-padded lowercase hex. -/

/-- Little-endian value of a block of bytes (spec side). -/
def littleEndianVal : List Nat → Nat
  | [] => 0
  | b :: rest => b + 256 * littleEndianVal rest

/-- Sum of sums of the block list: block `i` of `k` blocks contributes
`(k - i)` times its value (spec side). -/
def weightedSum : List Nat → Nat
  | [] => 0
  | b :: rest => b * (rest.length + 1) + weightedSum rest

/-- Fletcher's checksum as the spec states it. -/
def fletcherSpec (word : String) (size : Nat) : String :=
  let bits := size / 2
  let modulus := 2 ^ bits - 1
  let bytes := word.data.map Char.toNat
  let blocks := (group bytes (bits / 8) 0).map littleEndianVal
  let a := blocks.sum % modulus
  let b := weightedSum blocks % modulus
  zfill (toHex (b <<< bits ||| a)) 4

/-! ## models.py: the data model

The zone structure below mirrors the dnspython containers the Zone store
operates on: a zone is an insertion-ordered association of relativized
name text to nodes, a node owns a list of rdatasets, an rdataset is a
duplicate-free list of rdata sharing a TTL and a (class, type) key.  The
rdata codec is external to the repository ("record-data-type-specific
parsing/formatting" is out of scope per the spec), so rdata is either the
SOA variant, whose serial field the serial manager reads and writes, or
opaque canonical text. -/

/-- The error taxonomy of the spec (section 7), as raised by the embedded
operations: `notFound` models the `KeyError` of `get_record`,
`unknownType`/`unknownClass`/`malformedContent` model the dnspython
conversion failures inside `add_record`. -/
inductive DnsErr where
  | notFound
  | unknownType
  | unknownClass
  | malformedContent
deriving DecidableEq, Repr

/-- SOA record data: the one rdata variant with typed fields, since the
serial manager reads and rewrites its serial. -/
structure SOAData where
  mname : String
  rname : String
  serial : Nat
  refresh : Nat
  retry : Nat
  expire : Nat
  minimum : Nat
deriving DecidableEq, Repr

/-- Record data: an opaque, already-canonical value object (spec section
1), except for the SOA variant whose serial is exposed. -/
inductive Rdata where
  | soa (d : SOAData)
  | plain (text : String)
deriving DecidableEq, Repr

/-- Canonical text of an rdata value (dnspython `rdata.to_text()`). -/
def Rdata.toText : Rdata → String
  | .soa d =>
      d.mname ++ " " ++ d.rname ++ " " ++ toString d.serial ++ " " ++ toString d.refresh
        ++ " " ++ toString d.retry ++ " " ++ toString d.expire ++ " " ++ toString d.minimum
  | .plain t => t

/-- A (class, type) bucket of rdata sharing a TTL, owned by one node
(dnspython `Rdataset`). -/
structure Rdataset where
  rdclass : String
  rdtype : String
  ttl : Nat
  rdatas : List Rdata
deriving DecidableEq, Repr

/-- A domain name's container of rdatasets (dnspython `Node`). -/
structure Node where
  rdatasets : List Rdataset
deriving DecidableEq, Repr

/-- The Zone store: origin text (absolute, e.g. "example.com."), the
default TTL attached at load time (`zone._ttl`), and the nodes keyed by
relativized name text in insertion order (a Python dict).  The master
file location is not represented: file I/O is out of the model. -/
structure Zone where
  origin : String
  defaultTtl : Nat
  nodes : List (String × Node)
deriving DecidableEq, Repr

/-! ### External name arithmetic

`dns.name` is an external collaborator.  Names are modelled as their
text: absolute names end in ".", relative names do not, "@" denotes the
origin itself. -/

/-- String suffix test over the character list (`String.endsWith`). -/
def strEndsWith (s suffix : String) : Bool := List.isSuffixOf suffix.data s.data

/-- Drop the last `n` characters (`String.dropRight`). -/
def strDropRight (s : String) (n : Nat) : String :=
  String.mk (s.data.take (s.data.length - n))

/-- Models `dns.name.from_text(name, origin)`: "@" means the origin, an
absolute name stands, a relative name is completed with the origin. -/
def nameFromText (name origin : String) : String :=
  if name = "@" then origin
  else if strEndsWith name "." then name
  else name ++ "." ++ origin

/-- Models `Name.relativize(origin)`: the origin itself becomes "@", a
subdomain of the origin loses the origin suffix, any other name is
returned unchanged. -/
def nameRelativize (name origin : String) : String :=
  if name = origin then "@"
  else if strEndsWith name ("." ++ origin) then strDropRight name (origin.length + 1)
  else name

/-- Resolve a name string against the origin and relativize it, the
combination `add_record` and `find_record` perform. -/
def relName (name origin : String) : String :=
  nameRelativize (nameFromText name origin) origin

/-- ASCII upper-casing (Python `str.upper()` on the mnemonic arguments). -/
def strUpper (s : String) : String := String.mk (s.data.map Char.toUpper)

/-- The rdata type mnemonics the model knows; `dns.rdatatype.from_text`
accepts far more, but the operations only compare mnemonics, so a
representative list suffices. -/
def knownRdtypes : List String :=
  ["A", "AAAA", "CNAME", "MX", "NS", "PTR", "SOA", "SRV", "TXT", "ANY"]

/-- Models `dns.rdatatype.from_text`: case-insensitive; `none` models the
exception for an unknown mnemonic. -/
def rdatatypeFromText (s : String) : Option String :=
  if strUpper s ∈ knownRdtypes then some (strUpper s) else none

/-- Models `dns.rdataclass.from_text`. -/
def rdclassFromText (s : String) : Option String :=
  if strUpper s ∈ ["IN", "CH", "HS", "ANY"] then some (strUpper s) else none

/-- The record-type test of `Zone.get_records`:
`r.rdtype == dns.rdatatype.from_text(rdtype) or rdtype.upper() == "ANY"`.
(For an unknown mnemonic the Python call raises instead; the claims only
exercise known types.) -/
def typeMatch (setType query : String) : Bool :=
  rdatatypeFromText query == some setType || strUpper query == "ANY"

/-! ### The Record view -/

/-- The read-oriented composite view over origin, name, record-set and
record-data (`localzone.models.Record`).  The Python object holds
references to its node/rdataset/rdata; here the rdataset-derived fields
(ttl, class, type) are copied out at construction, exactly the fields
`to_text` renders, and `rdata` is kept for the mutation operations. -/
structure Record where
  origin : String
  name : String
  ttl : Nat
  rdclass : String
  rdtype : String
  rdata : Rdata
deriving DecidableEq, Repr

/-- `Record.content`: the rdata's canonical text. -/
def Record.content (r : Record) : String := r.rdata.toText

/-- `Record.to_text`: "{name} {ttl} {rdclass} {rdtype} {content}". -/
def Record.toText (r : Record) : String :=
  r.name ++ " " ++ toString r.ttl ++ " " ++ r.rdclass ++ " " ++ r.rdtype ++ " " ++ r.content

/-- `Record.hashid`: the 32-bit Fletcher checksum of the canonical text,
computed at construction. -/
def Record.hashid (r : Record) : String := checksumCore r.toText 32

/-- Construct the Record view the Zone store produces when enumerating:
`Record(self.origin, n, self[n], rds, r)`. -/
def mkRecord (origin name : String) (rds : Rdataset) (rd : Rdata) : Record :=
  { origin := origin, name := name, ttl := rds.ttl, rdclass := rds.rdclass,
    rdtype := rds.rdtype, rdata := rd }

/-! ### Queries -/

/-- Embeds `Zone.get_records`: enumerate every node, every rdataset,
every rdata, keeping the type matches. -/
def Zone.get_records (z : Zone) (rdtype : String) : List Record :=
  z.nodes.flatMap fun p =>
    p.2.rdatasets.flatMap fun rds =>
      if typeMatch rds.rdtype rdtype then rds.rdatas.map (mkRecord z.origin p.1 rds) else []

/-- Embeds the `Zone.records` property: all records, via `"ANY"`. -/
def Zone.records (z : Zone) : List Record := z.get_records "ANY"

/-- Embeds `Zone.get_record`: linear scan for the hashid; `none` models
the `KeyError`. -/
def Zone.get_record (z : Zone) (hashid : String) : Option Record :=
  z.records.find? fun r => r.hashid == hashid

/-- Python truthiness of an optional string argument: absent or empty is
falsy. -/
def truthy : Option String → Bool
  | none => false
  | some s => !(s == "")

/-- The name filter after `find_record`'s reassignment: a truthy name is
resolved against the origin and relativized. -/
def Zone.findNameArg (z : Zone) (name : Option String) : Option String :=
  if truthy name then name.map (fun n => relName n z.origin) else name

/-- The content filter after `find_record`'s reassignment: a truthy
content for record type TXT is wrapped in double quotes, matching the
quoting of stored TXT content. -/
def findContentArg (rdtype : String) (content : Option String) : Option String :=
  if strUpper rdtype == "TXT" && truthy content then
    content.map (fun c => "\"" ++ c ++ "\"")
  else content

/-- Embeds `Zone.find_record`: relativize a truthy name filter, quote a
truthy content filter for TXT, then keep the records matching the
four-way condition of the source. -/
def Zone.find_record (z : Zone) (rdtype : String) (name content : Option String) : List Record :=
  let name := z.findNameArg name
  let content := findContentArg rdtype content
  (z.get_records rdtype).filter fun r =>
    (name == some r.name && content == some r.content)
      || (name == some r.name && !truthy content)
      || (content == some r.content && !truthy name)
      || (!truthy name && !truthy content)

/-! ### add_record -/

/-- Models the external record-data codec
(`dns.rdata.from_text(rdclass, rdtype, content, origin)`): `none` models
the parse failures (`UnknownType` / `MalformedContent`). -/
structure Codec where
  parse : String → String → String → String → Option Rdata

/-- Models dnspython `Rdataset.add(rd, ttl)`: `update_ttl` keeps the
minimum of the current and supplied TTL (the supplied TTL is taken as is
when the set is empty), then the rdata is appended unless an equal value
is already present (set semantics). -/
def Rdataset.addRd (rds : Rdataset) (rd : Rdata) (ttl : Nat) : Rdataset :=
  { rds with
    ttl := if rds.rdatas.isEmpty then ttl else min rds.ttl ttl,
    rdatas := if rd ∈ rds.rdatas then rds.rdatas else rds.rdatas ++ [rd] }

/-- Models `Node.find_rdataset(rdclass, rdtype, create=True)` followed by
`Rdataset.add`: the first matching rdataset receives the rdata, and a
fresh rdataset (initial TTL 0, as dnspython constructs it) is appended
when none matches.  Returns the new list and the updated/created set. -/
def addToSets : List Rdataset → String → String → Rdata → Nat → List Rdataset × Rdataset
  | [], rdclass, rdtype, rd, ttl =>
    let rds := (Rdataset.mk rdclass rdtype 0 []).addRd rd ttl
    ([rds], rds)
  | s :: rest, rdclass, rdtype, rd, ttl =>
    if s.rdclass = rdclass ∧ s.rdtype = rdtype then
      (s.addRd rd ttl :: rest, s.addRd rd ttl)
    else
      ((s :: (addToSets rest rdclass rdtype rd ttl).1), (addToSets rest rdclass rdtype rd ttl).2)

/-- Models `Zone.find_node(name, create=True)` composed with the above:
the first node with the given name receives the record, and a fresh node
is appended when none exists (Python dict insertion order). -/
def addToNodes :
    List (String × Node) → String → String → String → Rdata → Nat →
      List (String × Node) × Rdataset
  | [], nm, rdclass, rdtype, rd, ttl =>
    let res := addToSets [] rdclass rdtype rd ttl
    ([(nm, Node.mk res.1)], res.2)
  | p :: rest, nm, rdclass, rdtype, rd, ttl =>
    if p.1 = nm then
      let res := addToSets p.2.rdatasets rdclass rdtype rd ttl
      ((nm, Node.mk res.1) :: rest, res.2)
    else
      ((p :: (addToNodes rest nm rdclass rdtype rd ttl).1),
        (addToNodes rest nm rdclass rdtype rd ttl).2)

/-- The TTL `add_record` passes to the rdataset: `if not ttl: ttl =
self.ttl` replaces both an omitted and a zero TTL (falsy values) by the
zone default. -/
def Zone.effectiveTtl (z : Zone) (ttl : Option Nat) : Nat :=
  match ttl with
  | none => z.defaultTtl
  | some t => if t = 0 then z.defaultTtl else t

/-- Embeds `Zone.add_record`: convert class and type, resolve and
relativize the name, substitute the default TTL for a falsy one, parse
the content via the codec, get-or-create node and rdataset, add the
rdata, and return the Record view of the updated set. -/
def Zone.add_record (z : Zone) (codec : Codec) (name rdtype content : String)
    (rdclass : String) (ttl : Option Nat) : Except DnsErr (Zone × Record) :=
  match rdclassFromText rdclass with
  | none => .error .unknownClass
  | some rdclassU =>
    match rdatatypeFromText rdtype with
    | none => .error .unknownType
    | some rdtypeU =>
      let nm := relName name z.origin
      let effTtl := z.effectiveTtl ttl
      match codec.parse rdclassU rdtypeU content z.origin with
      | none => .error .malformedContent
      | some rd =>
        let res := addToNodes z.nodes nm rdclassU rdtypeU rd effTtl
        .ok ({ z with nodes := res.1 }, mkRecord z.origin nm res.2 rd)

/-! ### remove_record -/

/-- Models `record.rdataset.remove(record.rdata)` located through the
record's back-references: the first rdataset with the record's type (the
unique one, in a well-formed zone) loses the first rdata equal to the
record's. -/
def eraseRdInSets : List Rdataset → String → Rdata → List Rdataset
  | [], _, _ => []
  | s :: rest, rdtype, rd =>
    if s.rdtype = rdtype then { s with rdatas := s.rdatas.erase rd } :: rest
    else s :: eraseRdInSets rest rdtype rd

/-- Look a node up by name (Python `self.nodes[name]` access). -/
def lookupNode (nodes : List (String × Node)) (nm : String) : Option Node :=
  (nodes.find? fun p => p.1 == nm).map Prod.snd

/-- Models `Node.get_rdataset(rdclass, rdtype)`: first set of the type. -/
def Node.findSet (node : Node) (rdtype : String) : Option Rdataset :=
  node.rdatasets.find? fun s => s.rdtype == rdtype

/-- Models dnspython `Zone.delete_node(name)`. -/
def Zone.delete_node (z : Zone) (nm : String) : Zone :=
  { z with nodes := z.nodes.filter fun p => p.1 != nm }

/-- Models dnspython `Node.delete_rdataset`: drop the first rdataset of
the given type. -/
def Node.deleteSet (node : Node) (rdtype : String) : Node :=
  Node.mk (node.rdatasets.eraseP fun s => s.rdtype == rdtype)

/-- Node-list part of dnspython `Zone.delete_rdataset(name, rdtype)`:
delete the rdataset inside the node and drop the node itself when it
became empty. -/
def deleteRdatasetNodes (nodes : List (String × Node)) (nm rdtype : String) :
    List (String × Node) :=
  let nodes2 := nodes.map fun p => if p.1 = nm then (p.1, p.2.deleteSet rdtype) else p
  match lookupNode nodes2 nm with
  | none => nodes2
  | some node2 =>
    if node2.rdatasets.isEmpty then nodes2.filter fun p => p.1 != nm else nodes2

/-- Models dnspython `Zone.delete_rdataset(name, rdtype)`. -/
def Zone.delete_rdataset (z : Zone) (nm rdtype : String) : Zone :=
  { z with nodes := deleteRdatasetNodes z.nodes nm rdtype }

/-- Node-list part of `Zone.remove_record` after the record is resolved:
remove the rdata from its set, then apply the cascade checks of the
source on the updated set and node — delete the whole node when the
emptied set was the node's only one (`delete_node`), delete just the
emptied set otherwise (`delete_rdataset`). -/
def removeNodes (nodes : List (String × Node)) (r : Record) (cascade : Bool) :
    List (String × Node) :=
  let nodes1 := nodes.map fun p =>
    if p.1 = r.name then (p.1, Node.mk (eraseRdInSets p.2.rdatasets r.rdtype r.rdata)) else p
  if cascade then
    match lookupNode nodes1 r.name with
    | none => nodes1
    | some node1 =>
      match node1.findSet r.rdtype with
      | none => nodes1
      | some rds1 =>
        if rds1.rdatas.isEmpty ∧ node1.rdatasets.length = 1 then
          nodes1.filter fun p => p.1 != r.name
        else if rds1.rdatas.isEmpty then
          deleteRdatasetNodes nodes1 r.name r.rdtype
        else nodes1
  else nodes1

/-- The mutation of `Zone.remove_record` after the record is resolved. -/
def Zone.removeRecordAux (z : Zone) (r : Record) (cascade : Bool) : Zone :=
  { z with nodes := removeNodes z.nodes r cascade }

/-- Embeds `Zone.remove_record`: resolve via `get_record` (propagating
its failure), then mutate. -/
def Zone.remove_record (z : Zone) (hashid : String) (cascade : Bool) : Except DnsErr Zone :=
  match z.get_record hashid with
  | none => .error .notFound
  | some r => .ok (z.removeRecordAux r cascade)

/-- Embeds `Zone.update_record`: resolve, remove without cascade, then
re-add the new content under the old name and type (class "IN", TTL
omitted).  The second component is the zone state when the call returns
or raises: a parse failure in `add_record` leaves the zone with the old
record already removed, exactly as the Python remove-then-add ordering
does. -/
def Zone.update_record (z : Zone) (codec : Codec) (hashid content : String) :
    Except DnsErr Record × Zone :=
  match z.get_record hashid with
  | none => (.error .notFound, z)
  | some r =>
    let z1 := z.removeRecordAux r false
    match z1.add_record codec r.name r.rdtype content "IN" none with
    | .ok res => (.ok res.2, res.1)
    | .error e => (.error e, z1)

/-! ### The serial manager and save -/

/-- Embeds the serial computation of `Zone._increment_serial`:
`next_serial = int(strftime("%Y%m%d00", ...))` is the current date as
YYYYMMDD with "00" appended, i.e. `dateNum * 100`; a candidate not
exceeding the current serial is replaced by `serial + 1`. -/
def incrementSerialNum (dateNum serial : Nat) : Nat :=
  if dateNum * 100 ≤ serial then serial + 1 else dateNum * 100

/-- Apply a per-rdata transformation (receiving the node name and the
set's type) across the zone. -/
def Zone.mapRdatas (z : Zone) (f : String → String → Rdata → Rdata) : Zone :=
  { z with
    nodes := z.nodes.map fun p =>
      (p.1, Node.mk (p.2.rdatasets.map fun rds =>
        { rds with rdatas := rds.rdatas.map (f p.1 rds.rdtype) })) }

/-- Embeds the `Zone.soa` property: `get_records("soa")[0]`; `none`
models the index error on a zone without an SOA. -/
def Zone.soaRecord (z : Zone) : Option Record := (z.get_records "soa").head?

/-- The serial of the zone's SOA record, when the SOA rdata carries one. -/
def Zone.soaSerial (z : Zone) : Option Nat :=
  z.soaRecord.bind fun r =>
    match r.rdata with
    | .soa d => some d.serial
    | .plain _ => none

/-- Embeds `Zone._increment_serial`: compute the next serial and write it
into the SOA rdata.  The source's in-place branch
(`self.soa.rdata.serial = next_serial`) is modelled; the fallback branch
for immutable rdata replaces the record via `update_record` with the same
net serial.  `none` models the failure on a zone without a (typed) SOA
record. -/
def Zone.incrementSerial (z : Zone) (dateNum : Nat) : Option Zone :=
  match z.soaRecord with
  | none => none
  | some r =>
    match r.rdata with
    | .plain _ => none
    | .soa d =>
      let next := incrementSerialNum dateNum d.serial
      some (z.mapRdatas fun nm setType x =>
        if nm = r.name ∧ setType = "SOA" ∧ x = r.rdata then .soa { d with serial := next } else x)

/-- Embeds `Zone.save`: bump the serial when `autoserial` is set.  The
actual write of the master file (`to_file`) is I/O outside the model;
`dateNum` stands for the YYYYMMDD value `strftime` produces. -/
def Zone.save (z : Zone) (dateNum : Nat) (autoserial : Bool) : Option Zone :=
  if autoserial then z.incrementSerial dateNum else some z

/-! ### Structural invariants and statement helpers -/

/-- Well-formedness the dnspython containers maintain: node names are
unique (dict keys), a node has at most one rdataset per type
(find-or-create discipline), and an rdataset holds no duplicate rdata
(set semantics). -/
def wfZone (z : Zone) : Prop :=
  (z.nodes.map Prod.fst).Nodup ∧
    ∀ p ∈ z.nodes,
      (p.2.rdatasets.map Rdataset.rdtype).Nodup ∧ ∀ rds ∈ p.2.rdatasets, rds.rdatas.Nodup

instance wfZoneDecidable (z : Zone) : Decidable (wfZone z) := by
  unfold wfZone
  infer_instance

/-- The rdataset `add_record` would extend, if present. -/
def Zone.lookupSetFor (z : Zone) (nm rdclass rdtype : String) : Option Rdataset :=
  (lookupNode z.nodes nm).bind fun node =>
    node.rdatasets.find? fun s => s.rdclass == rdclass && s.rdtype == rdtype

/-- The TTL the record returned by `add_record` carries: the effective
TTL when the target rdataset is new or empty, and the minimum of the
existing set TTL and the effective TTL otherwise (dnspython
`update_ttl`). -/
def addTtlSpec (z : Zone) (nm rdclass rdtype : String) (effTtl : Nat) : Nat :=
  match z.lookupSetFor nm rdclass rdtype with
  | none => effTtl
  | some rds => if rds.rdatas.isEmpty then effTtl else min rds.ttl effTtl

/-! ### Concrete fixtures for witnesses and counterexamples -/

/-- A codec accepting everything as opaque text. -/
def plainCodec : Codec := ⟨fun _ _ content _ => some (.plain content)⟩

/-- A codec rejecting the content "BAD" (a malformed-content failure). -/
def badCodec : Codec :=
  ⟨fun _ _ content _ => if content = "BAD" then none else some (.plain content)⟩

/-- One A record at "www", set TTL equal to the zone default. -/
def zC1 : Zone :=
  ⟨"example.com.", 300, [("www", ⟨[⟨"IN", "A", 300, [.plain "1.2.3.4"]⟩]⟩)]⟩

/-- The record view of the single record of `zC1`. -/
def recC1 : Record := mkRecord "example.com." "www" ⟨"IN", "A", 300, [.plain "1.2.3.4"]⟩ (.plain "1.2.3.4")

/-- A zone whose only node holds a single single-record rdataset. -/
def zC2 : Zone :=
  ⟨"example.com.", 300, [("www", ⟨[⟨"IN", "A", 300, [.plain "1.2.3.4"]⟩]⟩)]⟩

/-- The record view of the single record of `zC2`. -/
def recC2 : Record := mkRecord "example.com." "www" ⟨"IN", "A", 300, [.plain "1.2.3.4"]⟩ (.plain "1.2.3.4")

/-- A zone with an SOA record at the apex. -/
def zC3 : Zone :=
  ⟨"example.com.", 3600,
    [("@", ⟨[⟨"IN", "SOA", 3600, [.soa ⟨"ns", "hostmaster", 2020010100, 86400, 7200, 2419200, 3600⟩]⟩]⟩)]⟩

/-- Fixture zone for the update-atomicity analysis. -/
def zC4 : Zone :=
  ⟨"example.com.", 300, [("www", ⟨[⟨"IN", "A", 300, [.plain "1.2.3.4"]⟩]⟩)]⟩

/-- The record view of the single record of `zC4`. -/
def recC4 : Record := mkRecord "example.com." "www" ⟨"IN", "A", 300, [.plain "1.2.3.4"]⟩ (.plain "1.2.3.4")

/-- One A record whose set TTL (100) differs from the zone default
(3600). -/
def zC6 : Zone :=
  ⟨"example.com.", 3600, [("www", ⟨[⟨"IN", "A", 100, [.plain "1.2.3.4"]⟩]⟩)]⟩

/-- The record view of the single record of `zC6`. -/
def recC6 : Record := mkRecord "example.com." "www" ⟨"IN", "A", 100, [.plain "1.2.3.4"]⟩ (.plain "1.2.3.4")

/-- An existing A rdataset with TTL 100, for adding a second record with
a larger requested TTL. -/
def zC7 : Zone :=
  ⟨"example.com.", 3600, [("w", ⟨[⟨"IN", "A", 100, [.plain "1.2.3.4"]⟩]⟩)]⟩

/-- An empty zone for the add-then-get witness. -/
def zC7w : Zone := ⟨"example.com.", 3600, []⟩

/-- The zone `zC7w.add_record` produces for "w" / A / "1.2.3.4". -/
def zC7wRes : Zone :=
  ⟨"example.com.", 3600, [("w", ⟨[⟨"IN", "A", 3600, [.plain "1.2.3.4"]⟩]⟩)]⟩

/-- The record `zC7w.add_record` returns. -/
def recC7w : Record := mkRecord "example.com." "w" ⟨"IN", "A", 3600, [.plain "1.2.3.4"]⟩ (.plain "1.2.3.4")

/-- Two distinct A records at "ww" whose record texts
"ww 300 IN A uuABCD  " and "ww 300 IN A   ABCDuu" are a Fletcher-32
collision: the texts differ in blocks 6 and 9 by 21845 = 65535 / 3 with
the block distance 3, so both sums agree modulo 65535 and the two
records share one hashid. -/
def zC8 : Zone :=
  ⟨"example.com.", 300, [("ww", ⟨[⟨"IN", "A", 300, [.plain "uuABCD  ", .plain "  ABCDuu"]⟩]⟩)]⟩

/-- The first of the two colliding records of `zC8`. -/
def recC8a : Record :=
  mkRecord "example.com." "ww" ⟨"IN", "A", 300, [.plain "uuABCD  ", .plain "  ABCDuu"]⟩ (.plain "uuABCD  ")

/-- The second of the two colliding records of `zC8`. -/
def recC8b : Record :=
  mkRecord "example.com." "ww" ⟨"IN", "A", 300, [.plain "uuABCD  ", .plain "  ABCDuu"]⟩ (.plain "  ABCDuu")

/-- A collision-free zone for the amended remove-then-get witness. -/
def zC8w : Zone :=
  ⟨"example.com.", 300, [("www", ⟨[⟨"IN", "A", 300, [.plain "1.2.3.4"]⟩]⟩)]⟩

/-- The record view of the single record of `zC8w`. -/
def recC8w : Record := mkRecord "example.com." "www" ⟨"IN", "A", 300, [.plain "1.2.3.4"]⟩ (.plain "1.2.3.4")

/-- A zone whose default TTL is 0, as a zone file without a $TTL
directive yields. -/
def zC10 : Zone := ⟨"example.com.", 0, []⟩

/-- A zone with a nonzero default TTL for the falsy-TTL witness. -/
def zC10w : Zone := ⟨"example.com.", 3600, []⟩

/-- The zone `zC10w.add_record` produces for "w" / A / "x" with ttl 0. -/
def zC10wRes : Zone :=
  ⟨"example.com.", 3600, [("w", ⟨[⟨"IN", "A", 3600, [.plain "x"]⟩]⟩)]⟩

/-- The record `zC10w.add_record` returns for "w" / A / "x" with ttl 0. -/
def recC10w : Record := mkRecord "example.com." "w" ⟨"IN", "A", 3600, [.plain "x"]⟩ (.plain "x")

/-- The node of `zC2`, for the cascade-branch witness. -/
def nodeC2 : Node := ⟨[⟨"IN", "A", 300, [.plain "1.2.3.4"]⟩]⟩

/-- One A record at "www", set TTL equal to the zone default, for the
amended update-identity witness. -/
def zC1w : Zone :=
  ⟨"example.com.", 300, [("www", ⟨[⟨"IN", "A", 300, [.plain "1.2.3.4"]⟩]⟩)]⟩

/-- The record view of the single record of `zC1w`. -/
def recC1w : Record := mkRecord "example.com." "www" ⟨"IN", "A", 300, [.plain "1.2.3.4"]⟩ (.plain "1.2.3.4")

/-- The record `zC1w.update_record` returns for the new content
"5.6.7.8". -/
def recC1wNew : Record := mkRecord "example.com." "www" ⟨"IN", "A", 300, [.plain "5.6.7.8"]⟩ (.plain "5.6.7.8")

/-- The zone `zC1w.update_record` produces for the new content
"5.6.7.8". -/
def zC1wRes : Zone :=
  ⟨"example.com.", 300, [("www", ⟨[⟨"IN", "A", 300, [.plain "5.6.7.8"]⟩]⟩)]⟩

/-- The record `zC6.update_record` returns for the new content
"9.9.9.9": its TTL is the zone default 3600, not the original 100. -/
def recC6new : Record := mkRecord "example.com." "www" ⟨"IN", "A", 3600, [.plain "9.9.9.9"]⟩ (.plain "9.9.9.9")

/-- The zone `zC6.update_record` produces for the new content
"9.9.9.9". -/
def zC6res : Zone :=
  ⟨"example.com.", 3600, [("www", ⟨[⟨"IN", "A", 3600, [.plain "9.9.9.9"]⟩]⟩)]⟩

/-- The zone left after removing the only record of `zC8w` with
cascade. -/
def zC8wRes : Zone := ⟨"example.com.", 300, []⟩

/-- A zone with one quoted TXT record, for the find_record witness. -/
def zC9 : Zone :=
  ⟨"example.com.", 3600, [("greeting", ⟨[⟨"IN", "TXT", 3600, [.plain "\"hi\""]⟩]⟩)]⟩

/-- The record view of the single record of `zC9`. -/
def recC9 : Record := mkRecord "example.com." "greeting" ⟨"IN", "TXT", 3600, [.plain "\"hi\""]⟩ (.plain "\"hi\"")

deriving instance DecidableEq for Except

/-! ## Checksum lemmas (C5) -/

/-- The running-sums loop of `checksum` in closed form: starting from
`(a, b)`, the loop returns the block sum and the weighted block sum. -/
theorem checksum_foldl_closed (l : List Nat) :
    ∀ a b : Nat,
      l.foldl (fun (ab : Nat × Nat) block => (ab.1 + block, ab.2 + ab.1 + block)) (a, b)
        = (a + l.sum, b + l.length * a + weightedSum l) := by
  induction l with
  | nil => intro a b; simp [weightedSum]
  | cons x rest ih =>
    intro a b
    simp only [List.foldl_cons, ih, List.sum_cons, List.length_cons, weightedSum,
      Prod.mk.injEq]
    constructor <;> ring

/-- Shifting past a small number and or-ing is addition. -/
theorem shiftLeft_lor_eq_add (x n a : Nat) (h : a < 2 ^ n) :
    x <<< n ||| a = x * 2 ^ n + a := by
  rw [Nat.shiftLeft_eq, Nat.mul_comm]
  exact (Nat.mul_add_lt_is_or h x).symm

/-- The `pack` loop over an enumeration starting at `k`, in closed form. -/
theorem pack_go (l : List Nat) :
    ∀ k acc : Nat, (∀ x ∈ l, x < 256) → acc < 2 ^ (k * 8) →
      (List.enumFrom k l).foldl (fun result p => p.2 <<< (p.1 * 8) ||| result) acc
        = acc + littleEndianVal l * 2 ^ (k * 8) := by
  induction l with
  | nil => intro k acc _ _; simp [littleEndianVal]
  | cons x rest ih =>
    intro k acc hb hacc
    have hx : x < 256 := hb x (List.mem_cons_self x rest)
    simp only [List.enumFrom_cons, List.foldl_cons]
    rw [shiftLeft_lor_eq_add x (k * 8) acc hacc]
    have hstep : x * 2 ^ (k * 8) + acc < 2 ^ ((k + 1) * 8) := by
      have h1 : x * 2 ^ (k * 8) + acc < (x + 1) * 2 ^ (k * 8) := by
        have := Nat.add_lt_add_left hacc (x * 2 ^ (k * 8))
        calc x * 2 ^ (k * 8) + acc < x * 2 ^ (k * 8) + 2 ^ (k * 8) := this
          _ = (x + 1) * 2 ^ (k * 8) := by ring
      have h2 : (x + 1) * 2 ^ (k * 8) ≤ 256 * 2 ^ (k * 8) :=
        Nat.mul_le_mul_right _ (by omega)
      have h3 : 256 * 2 ^ (k * 8) = 2 ^ ((k + 1) * 8) := by
        have : (k + 1) * 8 = 8 + k * 8 := by ring
        rw [this, pow_add]
        norm_num
      omega
    rw [ih (k + 1) _ (fun y hy => hb y (List.mem_cons_of_mem x hy)) hstep]
    have hpow : 2 ^ ((k + 1) * 8) = 256 * 2 ^ (k * 8) := by
      have : (k + 1) * 8 = 8 + k * 8 := by ring
      rw [this, pow_add]
      norm_num
    simp only [littleEndianVal, hpow]
    ring

/-- `pack` computes the little-endian value of a block of bytes. -/
theorem pack_eq_littleEndianVal (l : List Nat) (hb : ∀ x ∈ l, x < 256) :
    pack l = littleEndianVal l := by
  have h := pack_go l 0 0 hb (by simp)
  simpa [pack, List.enum] using h

/-- Sufficient fuel is irrelevant: `groupGo` computes the same blocks as
with the list length as fuel. -/
theorem groupGo_fuel :
    ∀ (f : Nat) (l : List Nat) (n pad : Nat), l.length ≤ f →
      groupGo f l (n + 1) pad = groupGo l.length l (n + 1) pad := by
  intro f
  induction f using Nat.strong_induction_on with
  | _ f ih =>
    intro l n pad h
    cases f with
    | zero =>
      cases l with
      | nil => rfl
      | cons x xs => simp at h
    | succ f =>
      cases l with
      | nil => rfl
      | cons x xs =>
        show groupGo (f + 1) (x :: xs) (n + 1) pad = groupGo (xs.length + 1) (x :: xs) (n + 1) pad
        rw [groupGo, groupGo]
        by_cases hle : (x :: xs).length ≤ n + 1
        · rw [if_pos hle, if_pos hle]
        · rw [if_neg hle, if_neg hle]
          congr 1
          have hdl : ((x :: xs).drop (n + 1)).length ≤ f := by
            simp only [List.length_drop, List.length_cons]
            simp only [List.length_cons] at h
            omega
          have hdl2 : ((x :: xs).drop (n + 1)).length ≤ xs.length := by
            simp only [List.length_drop, List.length_cons]
            omega
          rw [ih f (Nat.lt_succ_self f) _ n pad hdl,
            ih xs.length (by simp only [List.length_cons] at h; omega) _ n pad hdl2]

/-- `group` with block size 0 is empty (the zip of zero iterators). -/
theorem group_eq_zero (l : List Nat) (pad : Nat) : group l 0 pad = [] := by
  cases l <;> rfl

/-- `group` of the empty list is empty. -/
theorem group_eq_nil (n pad : Nat) : group [] n pad = [] := by
  cases n <;> rfl

/-- The defining equation of `group` on a nonempty list and positive
block size. -/
theorem group_eq_cons (x : Nat) (xs : List Nat) (n pad : Nat) :
    group (x :: xs) (n + 1) pad =
      if (x :: xs).length ≤ n + 1 then
        [(x :: xs) ++ List.replicate (n + 1 - (x :: xs).length) pad]
      else (x :: xs).take (n + 1) :: group ((x :: xs).drop (n + 1)) (n + 1) pad := by
  show groupGo (xs.length + 1) (x :: xs) (n + 1) pad = _
  rw [groupGo]
  by_cases hle : (x :: xs).length ≤ n + 1
  · rw [if_pos hle, if_pos hle]
  · rw [if_neg hle, if_neg hle]
    congr 1
    exact groupGo_fuel xs.length _ n pad
      (by simp only [List.length_drop, List.length_cons]; omega)

/-- Blocks of one item are the items themselves. -/
theorem group_one (l : List Nat) (pad : Nat) : group l 1 pad = l.map fun x => [x] := by
  induction l with
  | nil => simp [group_eq_nil]
  | cons x rest ih =>
    rw [show (1 : Nat) = 0 + 1 from rfl, group_eq_cons]
    rcases rest with _ | ⟨y, rest⟩
    · simp
    · rw [if_neg (by simp)]
      simp [ih]

/-- Every element of a block produced by `group` is an input element or
the pad value. -/
theorem group_mem (l : List Nat) (n pad : Nat) :
    ∀ blk ∈ group l n pad, ∀ x ∈ blk, x ∈ l ∨ x = pad := by
  suffices H : ∀ (N : Nat) (l : List Nat), l.length ≤ N → ∀ n pad,
      ∀ blk ∈ group l n pad, ∀ x ∈ blk, x ∈ l ∨ x = pad from
    H l.length l le_rfl n pad
  intro N
  induction N with
  | zero =>
    intro l hl n pad blk hblk
    have : l = [] := List.length_eq_zero.mp (Nat.le_zero.mp hl)
    subst this
    rw [group_eq_nil] at hblk
    cases hblk
  | succ N ih =>
    intro l hl n pad blk hblk x hx
    cases l with
    | nil =>
      rw [group_eq_nil] at hblk
      cases hblk
    | cons y ys =>
      cases n with
      | zero =>
        rw [group_eq_zero] at hblk
        cases hblk
      | succ n =>
        rw [group_eq_cons] at hblk
        by_cases hle : (y :: ys).length ≤ n + 1
        · rw [if_pos hle] at hblk
          simp only [List.mem_singleton] at hblk
          subst hblk
          rcases List.mem_append.mp hx with h | h
          · exact Or.inl h
          · exact Or.inr (List.eq_of_mem_replicate h)
        · rw [if_neg hle] at hblk
          rcases List.mem_cons.mp hblk with h | h
          · subst h
            exact Or.inl (List.take_subset _ _ hx)
          · have hdl : ((y :: ys).drop (n + 1)).length ≤ N := by
              simp only [List.length_drop, List.length_cons]
              simp only [List.length_cons] at hl
              omega
            rcases ih _ hdl (n + 1) pad blk h x hx with h' | h'
            · exact Or.inl (List.drop_subset _ _ h')
            · exact Or.inr h'

/-- The checksum body agrees with the spec's statement of Fletcher's
checksum on byte-valued text. -/
theorem checksumCore_eq_fletcherSpec (word : String) (size : Nat)
    (hb : ∀ c ∈ word.data, c.toNat < 256)
    (hs : size = 16 ∨ size = 32 ∨ size = 64) :
    checksumCore word size = fletcherSpec word size := by
  have hords : ∀ x ∈ word.data.map Char.toNat, x < 256 := by
    intro x hx
    rcases List.mem_map.mp hx with ⟨c, hc, rfl⟩
    exact hb c hc
  have hpack : ∀ bs : Nat,
      (group (word.data.map Char.toNat) bs 0).map pack
        = (group (word.data.map Char.toNat) bs 0).map littleEndianVal := by
    intro bs
    refine List.map_congr_left fun blk hblk => ?_
    refine pack_eq_littleEndianVal blk fun x hx => ?_
    rcases group_mem _ _ _ blk hblk x hx with h | h
    · exact hords x h
    · omega
  have hblocks :
      (if size = 16 then word.data.map Char.toNat
        else (group (word.data.map Char.toNat) (size / 2 / 8) 0).map pack)
        = (group (word.data.map Char.toNat) (size / 2 / 8) 0).map littleEndianVal := by
    rcases hs with rfl | rfl | rfl
    · rw [if_pos rfl]
      have h1 : (16 : Nat) / 2 / 8 = 1 := by norm_num
      rw [h1, group_one, List.map_map]
      have hsing : ∀ x : Nat, littleEndianVal [x] = x := fun x => by simp [littleEndianVal]
      simp [Function.comp_def, hsing]
    · rw [if_neg (by norm_num), hpack]
    · rw [if_neg (by norm_num), hpack]
  simp only [checksumCore, fletcherSpec, hblocks, checksum_foldl_closed]
  simp

/-! ## Record-enumeration machinery -/

/-- Every "ANY" query matches. -/
theorem typeMatch_any (t : String) : typeMatch t "ANY" = true := by
  have h : (strUpper "ANY" == "ANY") = true := by decide
  simp [typeMatch, h]

/-- Membership in `get_records`, decomposed into the node, rdataset and
rdata the view was built from. -/
theorem mem_get_records {z : Zone} {t : String} {s : Record} :
    s ∈ z.get_records t ↔
      ∃ nm node rds rd, (nm, node) ∈ z.nodes ∧ rds ∈ node.rdatasets ∧ rd ∈ rds.rdatas
        ∧ typeMatch rds.rdtype t = true ∧ s = mkRecord z.origin nm rds rd := by
  unfold Zone.get_records
  rw [List.mem_flatMap]
  constructor
  · rintro ⟨⟨nm, node⟩, hp, hs⟩
    rw [List.mem_flatMap] at hs
    rcases hs with ⟨rds, hrds, hs⟩
    by_cases ht : typeMatch rds.rdtype t
    · rw [if_pos ht] at hs
      rcases List.mem_map.mp hs with ⟨rd, hrd, rfl⟩
      exact ⟨nm, node, rds, rd, hp, hrds, hrd, ht, rfl⟩
    · rw [if_neg ht] at hs
      simp at hs
  · rintro ⟨nm, node, rds, rd, hp, hrds, hrd, ht, rfl⟩
    refine ⟨(nm, node), hp, List.mem_flatMap.mpr ⟨rds, hrds, ?_⟩⟩
    rw [if_pos ht]
    exact List.mem_map_of_mem _ hrd

/-- Membership in `records`: the `typeMatch` condition is trivial. -/
theorem mem_records {z : Zone} {s : Record} :
    s ∈ z.records ↔
      ∃ nm node rds rd, (nm, node) ∈ z.nodes ∧ rds ∈ node.rdatasets ∧ rd ∈ rds.rdatas
        ∧ s = mkRecord z.origin nm rds rd := by
  rw [Zone.records, mem_get_records]
  constructor
  · rintro ⟨nm, node, rds, rd, h1, h2, h3, _, h5⟩
    exact ⟨nm, node, rds, rd, h1, h2, h3, h5⟩
  · rintro ⟨nm, node, rds, rd, h1, h2, h3, h5⟩
    exact ⟨nm, node, rds, rd, h1, h2, h3, typeMatch_any _, h5⟩

/-- `get_record` misses exactly when no record carries the hashid. -/
theorem get_record_eq_none {z : Zone} {hid : String} :
    z.get_record hid = none ↔ ∀ s ∈ z.records, s.hashid ≠ hid := by
  simp [Zone.get_record]

/-- `find?` returns the sole element satisfying the test. -/
theorem find_eq_some_of_uniq {α : Type} {p : α → Bool} {l : List α} {a : α}
    (ha : a ∈ l) (hpa : p a = true) (hu : ∀ x ∈ l, p x = true → x = a) :
    l.find? p = some a := by
  induction l with
  | nil => cases ha
  | cons x rest ih =>
    by_cases hx : p x = true
    · rw [List.find?_cons_of_pos _ hx, hu x (List.mem_cons_self x rest) hx]
    · rw [List.find?_cons_of_neg _ hx]
      rcases List.mem_cons.mp ha with rfl | ha'
      · exact absurd hpa hx
      · exact ih ha' fun y hy => hu y (List.mem_cons_of_mem x hy)

/-- `get_record` finds a record present in the zone whose hashid no other
record shares. -/
theorem get_record_of_uniq {z : Zone} {r : Record} (hr : r ∈ z.records)
    (hu : ∀ s ∈ z.records, s.hashid = r.hashid → s = r) :
    z.get_record r.hashid = some r := by
  unfold Zone.get_record
  exact find_eq_some_of_uniq hr (by simp) fun s hs hps => hu s hs (by simpa using hps)

/-- Membership after the per-name node update used by the mutation
operations. -/
theorem mem_map_updateAt {nodes : List (String × Node)} {nm : String} {f : Node → Node}
    {q : String × Node}
    (h : q ∈ nodes.map fun p => if p.1 = nm then (p.1, f p.2) else p) :
    ∃ node0, (q.1, node0) ∈ nodes ∧ ((q.1 ≠ nm ∧ q.2 = node0) ∨ (q.1 = nm ∧ q.2 = f node0)) := by
  rcases List.mem_map.mp h with ⟨p, hp, hq⟩
  by_cases hpe : p.1 = nm
  · rw [if_pos hpe] at hq
    subst hq
    exact ⟨p.2, by simpa using hp, Or.inr ⟨by simpa using hpe, by simp⟩⟩
  · rw [if_neg hpe] at hq
    subst hq
    exact ⟨p.2, hp, Or.inl ⟨hpe, rfl⟩⟩

/-- Membership after `eraseRdInSets`: each surviving set is an original
set, possibly with the rdata erased from its list. -/
theorem mem_eraseRdInSets {sets : List Rdataset} {t : String} {rd : Rdata} {rds : Rdataset}
    (h : rds ∈ eraseRdInSets sets t rd) :
    ∃ rds0 ∈ sets,
      rds = rds0 ∨ (rds0.rdtype = t ∧ rds = { rds0 with rdatas := rds0.rdatas.erase rd }) := by
  induction sets with
  | nil => cases h
  | cons s rest ih =>
    rw [eraseRdInSets] at h
    by_cases hs : s.rdtype = t
    · rw [if_pos hs] at h
      rcases List.mem_cons.mp h with rfl | h'
      · exact ⟨s, List.mem_cons_self s rest, Or.inr ⟨hs, rfl⟩⟩
      · exact ⟨rds, List.mem_cons_of_mem s h', Or.inl rfl⟩
    · rw [if_neg hs] at h
      rcases List.mem_cons.mp h with rfl | h'
      · exact ⟨rds, List.mem_cons_self _ _, Or.inl rfl⟩
      · rcases ih h' with ⟨rds0, h0, hc⟩
        exact ⟨rds0, List.mem_cons_of_mem s h0, hc⟩

/-- `eraseRdInSets` keeps the list of set types unchanged. -/
theorem eraseRdInSets_rdtypes (sets : List Rdataset) (t : String) (rd : Rdata) :
    (eraseRdInSets sets t rd).map Rdataset.rdtype = sets.map Rdataset.rdtype := by
  induction sets with
  | nil => rfl
  | cons s rest ih =>
    rw [eraseRdInSets]
    by_cases hs : s.rdtype = t
    · rw [if_pos hs]; simp
    · rw [if_neg hs]; simpa using ih

/-- With distinct set types, no set of the erased type survives
`deleteSet`'s `eraseP`. -/
theorem eraseP_rdtype_ne {sets : List Rdataset} {t : String}
    (hnd : (sets.map Rdataset.rdtype).Nodup) {rds : Rdataset}
    (h : rds ∈ sets.eraseP fun s => s.rdtype == t) : rds.rdtype ≠ t := by
  induction sets with
  | nil => cases h
  | cons s rest ih =>
    simp only [List.map_cons, List.nodup_cons] at hnd
    by_cases hs : s.rdtype = t
    · rw [List.eraseP_cons_of_pos (by simpa using hs)] at h
      intro hrt
      exact hnd.1 (by rw [hs, ← hrt]; exact List.mem_map_of_mem _ h)
    · rw [List.eraseP_cons_of_neg (by simpa using hs)] at h
      rcases List.mem_cons.mp h with rfl | h'
      · exact hs
      · exact ih hnd.2 h'

/-- With distinct set types, a set of the erased rdata's type inside
`eraseRdInSets` is exactly the modified copy of the one original set of
that type. -/
theorem mem_eraseRdInSets_of_rdtype {sets : List Rdataset} {t : String} {rd : Rdata}
    {rds : Rdataset} (hnd : (sets.map Rdataset.rdtype).Nodup)
    (h : rds ∈ eraseRdInSets sets t rd) (ht : rds.rdtype = t) :
    ∃ rds0 ∈ sets, rds0.rdtype = t ∧ rds = { rds0 with rdatas := rds0.rdatas.erase rd } := by
  induction sets with
  | nil => cases h
  | cons s rest ih =>
    simp only [List.map_cons, List.nodup_cons] at hnd
    rw [eraseRdInSets] at h
    by_cases hs : s.rdtype = t
    · rw [if_pos hs] at h
      rcases List.mem_cons.mp h with rfl | h'
      · exact ⟨s, List.mem_cons_self _ _, hs, rfl⟩
      · have hmem : t ∈ rest.map Rdataset.rdtype := by
          rw [← ht]
          exact List.mem_map_of_mem _ h'
        rw [hs] at hnd
        exact absurd hmem hnd.1
    · rw [if_neg hs] at h
      rcases List.mem_cons.mp h with rfl | h'
      · exact absurd ht hs
      · rcases ih hnd.2 h' with ⟨rds0, h0, hc⟩
        exact ⟨rds0, List.mem_cons_of_mem s h0, hc⟩

/-- A record view only reads the TTL, class and type of its set, so a
set with equal such fields yields the same view. -/
theorem mkRecord_congr {origin nm : String} {rds rds0 : Rdataset} {rd : Rdata}
    (h1 : rds.ttl = rds0.ttl) (h2 : rds.rdclass = rds0.rdclass) (h3 : rds.rdtype = rds0.rdtype) :
    mkRecord origin nm rds rd = mkRecord origin nm rds0 rd := by
  simp [mkRecord, h1, h2, h3]

/-- A set refines another when only its rdata list shrank. -/
def setSub (rds rds0 : Rdataset) : Prop :=
  rds.ttl = rds0.ttl ∧ rds.rdclass = rds0.rdclass ∧ rds.rdtype = rds0.rdtype
    ∧ ∀ rd ∈ rds.rdatas, rd ∈ rds0.rdatas

/-- A node refines another when each of its sets refines one of the
other's. -/
def nodeSub (node node0 : Node) : Prop :=
  ∀ rds ∈ node.rdatasets, ∃ rds0 ∈ node0.rdatasets, setSub rds rds0

/-- Records of a zone whose node list refines another's are records of
the other zone. -/
theorem records_mono (z : Zone) (nl nl' : List (String × Node))
    (h : ∀ q ∈ nl', ∃ node0, (q.1, node0) ∈ nl ∧ nodeSub q.2 node0) :
    ∀ s ∈ ({ z with nodes := nl' } : Zone).records,
      s ∈ ({ z with nodes := nl } : Zone).records := by
  intro s hs
  rcases mem_records.mp hs with ⟨nm, node, rds, rd, hq, hrds, hrd, rfl⟩
  rcases h (nm, node) hq with ⟨node0, hq0, hsub⟩
  rcases hsub rds hrds with ⟨rds0, hrds0, hss⟩
  refine mem_records.mpr ⟨nm, node0, rds0, rd, hq0, hrds0, hss.2.2.2 rd hrd, ?_⟩
  exact mkRecord_congr hss.1 hss.2.1 hss.2.2.1

/-- Every set refines itself. -/
theorem setSub_refl (rds : Rdataset) : setSub rds rds :=
  ⟨rfl, rfl, rfl, fun _ h => h⟩

/-- Every node refines itself. -/
theorem nodeSub_refl (node : Node) : nodeSub node node :=
  fun rds h => ⟨rds, h, setSub_refl rds⟩

/-- The rdata-erasure stage of `remove_record` refines the node list. -/
theorem eraseStage_premise (nodes : List (String × Node)) (nm t : String) (rd : Rdata) :
    ∀ q ∈ nodes.map fun p =>
        if p.1 = nm then (p.1, Node.mk (eraseRdInSets p.2.rdatasets t rd)) else p,
      ∃ node0, (q.1, node0) ∈ nodes ∧ nodeSub q.2 node0 := by
  intro q hq
  rcases @mem_map_updateAt nodes nm (fun node => Node.mk (eraseRdInSets node.rdatasets t rd)) q hq
    with ⟨node0, h0, hc⟩
  refine ⟨node0, h0, ?_⟩
  rcases hc with ⟨_, he⟩ | ⟨_, he⟩
  · rw [he]
    exact nodeSub_refl node0
  · rw [he]
    intro rds hrds
    rcases mem_eraseRdInSets hrds with ⟨rds0, h0', hc'⟩
    rcases hc' with heq | ⟨_, heq⟩
    · refine ⟨rds0, h0', ?_⟩
      rw [heq]
      exact setSub_refl rds0
    · refine ⟨rds0, h0', ?_⟩
      rw [heq]
      exact ⟨rfl, rfl, rfl, fun x hx => List.erase_subset _ _ hx⟩

/-- The set-deletion stage of cascade refines the node list. -/
theorem deleteStage_premise (nodes : List (String × Node)) (nm t : String) :
    ∀ q ∈ nodes.map fun p => if p.1 = nm then (p.1, p.2.deleteSet t) else p,
      ∃ node0, (q.1, node0) ∈ nodes ∧ nodeSub q.2 node0 := by
  intro q hq
  rcases @mem_map_updateAt nodes nm (fun node => node.deleteSet t) q hq with ⟨node0, h0, hc⟩
  refine ⟨node0, h0, ?_⟩
  rcases hc with ⟨_, he⟩ | ⟨_, he⟩
  · rw [he]
    exact nodeSub_refl node0
  · rw [he]
    intro rds hrds
    exact ⟨rds, List.mem_of_mem_eraseP hrds, setSub_refl rds⟩

/-- Node filtering (node deletion) refines the node list. -/
theorem filterStage_premise (nodes : List (String × Node)) (pred : String × Node → Bool) :
    ∀ q ∈ nodes.filter pred, ∃ node0, (q.1, node0) ∈ nodes ∧ nodeSub q.2 node0 :=
  fun q hq => ⟨q.2, (List.mem_filter.mp hq).1, nodeSub_refl q.2⟩

/-- Set refinement is transitive. -/
theorem setSub_trans {a b c : Rdataset} (h1 : setSub a b) (h2 : setSub b c) : setSub a c :=
  ⟨h1.1.trans h2.1, h1.2.1.trans h2.2.1, h1.2.2.1.trans h2.2.2.1,
    fun rd hrd => h2.2.2.2 rd (h1.2.2.2 rd hrd)⟩

/-- Node-list refinement is transitive. -/
theorem premise_trans {l0 l1 l2 : List (String × Node)}
    (h21 : ∀ q ∈ l2, ∃ node1, (q.1, node1) ∈ l1 ∧ nodeSub q.2 node1)
    (h10 : ∀ q ∈ l1, ∃ node0, (q.1, node0) ∈ l0 ∧ nodeSub q.2 node0) :
    ∀ q ∈ l2, ∃ node0, (q.1, node0) ∈ l0 ∧ nodeSub q.2 node0 := by
  intro q hq
  rcases h21 q hq with ⟨node1, h1, hs1⟩
  rcases h10 (q.1, node1) h1 with ⟨node0, h0, hs0⟩
  refine ⟨node0, h0, fun rds hrds => ?_⟩
  rcases hs1 rds hrds with ⟨rdsB, hB, hsB⟩
  rcases hs0 rdsB hB with ⟨rdsC, hC, hsC⟩
  exact ⟨rdsC, hC, setSub_trans hsB hsC⟩

/-- `deleteRdatasetNodes` refines the node list. -/
theorem deleteRdatasetNodes_premise (nodes : List (String × Node)) (nm t : String) :
    ∀ q ∈ deleteRdatasetNodes nodes nm t,
      ∃ node0, (q.1, node0) ∈ nodes ∧ nodeSub q.2 node0 := by
  intro q hq
  simp only [deleteRdatasetNodes] at hq
  split at hq
  · exact deleteStage_premise nodes nm t q hq
  · split at hq
    · exact premise_trans (filterStage_premise _ _) (deleteStage_premise nodes nm t) q hq
    · exact deleteStage_premise nodes nm t q hq

/-- `removeNodes` refines the node list. -/
theorem removeNodes_premise (nodes : List (String × Node)) (r : Record) (c : Bool) :
    ∀ q ∈ removeNodes nodes r c, ∃ node0, (q.1, node0) ∈ nodes ∧ nodeSub q.2 node0 := by
  intro q hq
  simp only [removeNodes] at hq
  have he := eraseStage_premise nodes r.name r.rdtype r.rdata
  split at hq
  · split at hq
    · exact he q hq
    · split at hq
      · exact he q hq
      · split at hq
        · exact premise_trans (filterStage_premise _ _) he q hq
        · split at hq
          · exact premise_trans (deleteRdatasetNodes_premise _ r.name r.rdtype) he q hq
          · exact he q hq
  · exact he q hq

/-- Every record surviving `removeRecordAux` was a record of the zone. -/
theorem records_removeAux_sub (z : Zone) (r : Record) (c : Bool) :
    ∀ s ∈ (z.removeRecordAux r c).records, s ∈ z.records :=
  records_mono z z.nodes (removeNodes z.nodes r c) (removeNodes_premise z.nodes r c)

/-- Membership shapes of `deleteRdatasetNodes` at the deleted name. -/
theorem deleteRdatasetNodes_mem {nodes : List (String × Node)} {nm t : String}
    {q : String × Node} (hq : q ∈ deleteRdatasetNodes nodes nm t) (hname : q.1 = nm) :
    ∃ node0, (nm, node0) ∈ nodes ∧ q.2 = node0.deleteSet t := by
  have base : ∀ {q : String × Node},
      q ∈ (nodes.map fun p => if p.1 = nm then (p.1, p.2.deleteSet t) else p) → q.1 = nm →
      ∃ node0, (nm, node0) ∈ nodes ∧ q.2 = node0.deleteSet t := by
    intro q hq hqe
    rcases @mem_map_updateAt nodes nm (fun node => node.deleteSet t) q hq with ⟨node0, h0, hc⟩
    rcases hc with ⟨hne, _⟩ | ⟨_, he⟩
    · exact absurd hqe hne
    · exact ⟨node0, hqe ▸ h0, he⟩
  simp only [deleteRdatasetNodes] at hq
  split at hq
  · exact base hq hname
  · split at hq
    · have := (List.mem_filter.mp hq).2
      rw [hname] at this
      simp at this
    · exact base hq hname

/-- Membership shapes of `removeNodes` at the removed record's name: the
node is the erased one, possibly with the record's rdataset deleted. -/
theorem removeNodes_mem {nodes : List (String × Node)} {r : Record} {c : Bool}
    {q : String × Node} (hq : q ∈ removeNodes nodes r c) (hname : q.1 = r.name) :
    ∃ node0, (r.name, node0) ∈ nodes ∧
      (q.2 = Node.mk (eraseRdInSets node0.rdatasets r.rdtype r.rdata)
        ∨ q.2 = (Node.mk (eraseRdInSets node0.rdatasets r.rdtype r.rdata)).deleteSet r.rdtype) := by
  have base : ∀ {q : String × Node},
      q ∈ (nodes.map fun p =>
        if p.1 = r.name then (p.1, Node.mk (eraseRdInSets p.2.rdatasets r.rdtype r.rdata)) else p) →
      q.1 = r.name →
      ∃ node0, (r.name, node0) ∈ nodes
        ∧ q.2 = Node.mk (eraseRdInSets node0.rdatasets r.rdtype r.rdata) := by
    intro q hq hqe
    rcases @mem_map_updateAt nodes r.name
        (fun node => Node.mk (eraseRdInSets node.rdatasets r.rdtype r.rdata)) q hq
      with ⟨node0, h0, hc⟩
    rcases hc with ⟨hne, _⟩ | ⟨_, he⟩
    · exact absurd hqe hne
    · exact ⟨node0, hqe ▸ h0, he⟩
  simp only [removeNodes] at hq
  split at hq
  · split at hq
    · rcases base hq hname with ⟨node0, h0, he⟩
      exact ⟨node0, h0, Or.inl he⟩
    · split at hq
      · rcases base hq hname with ⟨node0, h0, he⟩
        exact ⟨node0, h0, Or.inl he⟩
      · split at hq
        · have := (List.mem_filter.mp hq).2
          rw [hname] at this
          simp at this
        · split at hq
          · rcases deleteRdatasetNodes_mem hq hname with ⟨nodeA, hA, heA⟩
            rcases base hA rfl with ⟨node0, h0, he0⟩
            refine ⟨node0, h0, Or.inr ?_⟩
            rw [heA]
            simp only at he0
            rw [he0]
          · rcases base hq hname with ⟨node0, h0, he⟩
            exact ⟨node0, h0, Or.inl he⟩
  · rcases base hq hname with ⟨node0, h0, he⟩
    exact ⟨node0, h0, Or.inl he⟩

/-- In a well-formed zone the removed record's view is gone after
`removeRecordAux`. -/
theorem self_not_mem_removeAux (z : Zone) (r : Record) (c : Bool) (hwf : wfZone z) :
    r ∉ (z.removeRecordAux r c).records := by
  intro hmem
  rcases mem_records.mp hmem with ⟨nm, node', rds', rd', hq, hrds, hrd, heq⟩
  have hname : nm = r.name := by rw [heq]; rfl
  have hrdt : rds'.rdtype = r.rdtype := by rw [heq]; rfl
  have hrda : rd' = r.rdata := by rw [heq]; rfl
  have hq' : (nm, node') ∈ removeNodes z.nodes r c := hq
  rcases removeNodes_mem hq' hname with ⟨node0, h0, hshape⟩
  have hnd1 : (node0.rdatasets.map Rdataset.rdtype).Nodup := ((hwf.2 (r.name, node0)) h0).1
  have hnd2 : ∀ rds ∈ node0.rdatasets, rds.rdatas.Nodup := ((hwf.2 (r.name, node0)) h0).2
  rcases hshape with he | he
  · have he2 : node' = Node.mk (eraseRdInSets node0.rdatasets r.rdtype r.rdata) := he
    have hrds' : rds' ∈ eraseRdInSets node0.rdatasets r.rdtype r.rdata := by
      rw [he2] at hrds
      exact hrds
    rcases mem_eraseRdInSets_of_rdtype hnd1 hrds' hrdt with ⟨rds0, h0', _, rfl⟩
    rw [hrda] at hrd
    exact ((hnd2 rds0 h0').mem_erase_iff.mp hrd).1 rfl
  · have he2 : node' = (Node.mk (eraseRdInSets node0.rdatasets r.rdtype r.rdata)).deleteSet
        r.rdtype := he
    have hrds' : rds' ∈ (eraseRdInSets node0.rdatasets r.rdtype r.rdata).eraseP
        fun s => s.rdtype == r.rdtype := by
      rw [he2] at hrds
      exact hrds
    have hnd : ((eraseRdInSets node0.rdatasets r.rdtype r.rdata).map Rdataset.rdtype).Nodup := by
      rw [eraseRdInSets_rdtypes]
      exact hnd1
    exact eraseP_rdtype_ne hnd hrds' hrdt

/-! ## add_record machinery -/

/-- The added rdata is in the updated set. -/
theorem addRd_rd_mem (s : Rdataset) (rd : Rdata) (ttl : Nat) : rd ∈ (s.addRd rd ttl).rdatas := by
  by_cases h : rd ∈ s.rdatas <;> simp [Rdataset.addRd, h]

/-- The rdataset `addToSets` returns is in the resulting list, contains
the rdata, and carries the requested class and type. -/
theorem addToSets_res (sets : List Rdataset) (c t : String) (rd : Rdata) (ttl : Nat) :
    (addToSets sets c t rd ttl).2 ∈ (addToSets sets c t rd ttl).1
      ∧ rd ∈ (addToSets sets c t rd ttl).2.rdatas
      ∧ (addToSets sets c t rd ttl).2.rdclass = c
      ∧ (addToSets sets c t rd ttl).2.rdtype = t := by
  induction sets with
  | nil => exact ⟨List.mem_singleton_self _, addRd_rd_mem _ rd ttl, rfl, rfl⟩
  | cons s rest ih =>
    rw [addToSets]
    by_cases hm : s.rdclass = c ∧ s.rdtype = t
    · rw [if_pos hm]
      exact ⟨List.mem_cons_self _ _, addRd_rd_mem s rd ttl, hm.1, hm.2⟩
    · rw [if_neg hm]
      exact ⟨List.mem_cons_of_mem s ih.1, ih.2.1, ih.2.2.1, ih.2.2.2⟩

/-- TTL of the set `addToSets` returns: the requested TTL for a fresh or
empty set, the minimum with the existing TTL otherwise. -/
theorem addToSets_ttl (sets : List Rdataset) (c t : String) (rd : Rdata) (ttl : Nat) :
    (addToSets sets c t rd ttl).2.ttl =
      match sets.find? fun s => s.rdclass == c && s.rdtype == t with
      | none => ttl
      | some s => if s.rdatas.isEmpty then ttl else min s.ttl ttl := by
  induction sets with
  | nil => simp [addToSets, Rdataset.addRd]
  | cons s rest ih =>
    rw [addToSets]
    by_cases hm : s.rdclass = c ∧ s.rdtype = t
    · rw [if_pos hm]
      rw [List.find?_cons_of_pos _ (by simp [hm.1, hm.2])]
      simp [Rdataset.addRd]
    · rw [if_neg hm]
      have hneg : ¬((fun s : Rdataset => s.rdclass == c && s.rdtype == t) s = true) := by
        simp only [Bool.and_eq_true, beq_iff_eq]
        exact hm
      rw [@List.find?_cons_of_neg Rdataset (fun s => s.rdclass == c && s.rdtype == t) s rest hneg]
      exact ih

/-- The node holding the rdataset `addToNodes` returns. -/
theorem addToNodes_res (nodes : List (String × Node)) (nm c t : String) (rd : Rdata) (ttl : Nat) :
    ∃ node, (nm, node) ∈ (addToNodes nodes nm c t rd ttl).1
      ∧ (addToNodes nodes nm c t rd ttl).2 ∈ node.rdatasets := by
  induction nodes with
  | nil =>
    exact ⟨Node.mk (addToSets [] c t rd ttl).1, List.mem_singleton_self _,
      (addToSets_res [] c t rd ttl).1⟩
  | cons p rest ih =>
    rw [addToNodes]
    by_cases hm : p.1 = nm
    · rw [if_pos hm]
      exact ⟨Node.mk (addToSets p.2.rdatasets c t rd ttl).1, List.mem_cons_self _ _,
        (addToSets_res p.2.rdatasets c t rd ttl).1⟩
    · rw [if_neg hm]
      rcases ih with ⟨node, hn, hs⟩
      exact ⟨node, List.mem_cons_of_mem p hn, hs⟩

/-- The set `addToNodes` returns is the one `addToSets` builds from the
looked-up node's sets. -/
theorem addToNodes_set (nodes : List (String × Node)) (nm c t : String) (rd : Rdata) (ttl : Nat) :
    (addToNodes nodes nm c t rd ttl).2 =
      match lookupNode nodes nm with
      | none => (addToSets [] c t rd ttl).2
      | some node => (addToSets node.rdatasets c t rd ttl).2 := by
  induction nodes with
  | nil => rfl
  | cons p rest ih =>
    rw [addToNodes]
    by_cases hm : p.1 = nm
    · rw [if_pos hm]
      unfold lookupNode
      rw [List.find?_cons_of_pos _ (by simp [hm])]
      rfl
    · rw [if_neg hm]
      unfold lookupNode
      rw [List.find?_cons_of_neg _ (by simp [hm])]
      exact ih

/-- Class, type and rdata membership of the set `addToNodes` returns. -/
theorem addToNodes_fields (nodes : List (String × Node)) (nm c t : String) (rd : Rdata)
    (ttl : Nat) :
    rd ∈ (addToNodes nodes nm c t rd ttl).2.rdatas
      ∧ (addToNodes nodes nm c t rd ttl).2.rdclass = c
      ∧ (addToNodes nodes nm c t rd ttl).2.rdtype = t := by
  rw [addToNodes_set]
  rcases lookupNode nodes nm with _ | node
  · exact ⟨(addToSets_res [] c t rd ttl).2.1, (addToSets_res [] c t rd ttl).2.2⟩
  · exact ⟨(addToSets_res node.rdatasets c t rd ttl).2.1,
      (addToSets_res node.rdatasets c t rd ttl).2.2⟩

/-- TTL of the set `addToNodes` returns, in terms of the zone lookup. -/
theorem addToNodes_ttl (nodes : List (String × Node)) (nm c t : String) (rd : Rdata)
    (ttl : Nat) :
    (addToNodes nodes nm c t rd ttl).2.ttl =
      match (lookupNode nodes nm).bind
          (fun node => node.rdatasets.find? fun s => s.rdclass == c && s.rdtype == t) with
      | none => ttl
      | some s => if s.rdatas.isEmpty then ttl else min s.ttl ttl := by
  rw [addToNodes_set]
  rcases lookupNode nodes nm with _ | node
  · simpa using addToSets_ttl [] c t rd ttl
  · simpa using addToSets_ttl node.rdatasets c t rd ttl

/-- Unpacking a successful `add_record`: the conversions and the parse
succeeded, and the result is the `addToNodes` update together with the
view of the updated set. -/
theorem add_record_ok {z : Zone} {codec : Codec} {name rdtype content rdclass : String}
    {ttl : Option Nat} {z2 : Zone} {r2 : Record}
    (h : z.add_record codec name rdtype content rdclass ttl = .ok (z2, r2)) :
    ∃ cU tU rd,
      rdclassFromText rdclass = some cU ∧ rdatatypeFromText rdtype = some tU
        ∧ codec.parse cU tU content z.origin = some rd
        ∧ z2 = { z with
            nodes := (addToNodes z.nodes (relName name z.origin) cU tU rd
              (z.effectiveTtl ttl)).1 }
        ∧ r2 = mkRecord z.origin (relName name z.origin)
            (addToNodes z.nodes (relName name z.origin) cU tU rd (z.effectiveTtl ttl)).2 rd := by
  simp only [Zone.add_record] at h
  split at h
  · simp at h
  · rename_i cU hcU
    split at h
    · simp at h
    · rename_i tU htU
      split at h
      · simp at h
      · rename_i rd hrd
        simp only [Except.ok.injEq, Prod.mk.injEq] at h
        exact ⟨cU, tU, rd, hcU, htU, hrd, h.1.symm, h.2.symm⟩

/-- The record `add_record` returns is a record of the updated zone. -/
theorem add_record_ret_mem {z : Zone} {codec : Codec} {name rdtype content rdclass : String}
    {ttl : Option Nat} {z2 : Zone} {r2 : Record}
    (h : z.add_record codec name rdtype content rdclass ttl = .ok (z2, r2)) :
    r2 ∈ z2.records := by
  rcases add_record_ok h with ⟨cU, tU, rd, _, _, _, rfl, rfl⟩
  rcases addToNodes_res z.nodes (relName name z.origin) cU tU rd (z.effectiveTtl ttl)
    with ⟨node, hn, hs⟩
  exact mem_records.mpr ⟨relName name z.origin, node,
    (addToNodes z.nodes (relName name z.origin) cU tU rd (z.effectiveTtl ttl)).2, rd, hn, hs,
    (addToNodes_fields z.nodes (relName name z.origin) cU tU rd (z.effectiveTtl ttl)).1, rfl⟩

/-! ## Serial-manager machinery -/

/-- Node-level form of the rdata map underlying `incrementSerial`. -/
theorem records_map_node (origin nm t : String) (f : String → String → Rdata → Rdata)
    (sets : List Rdataset) :
    (sets.map fun rds => { rds with rdatas := rds.rdatas.map (f nm rds.rdtype) }).flatMap
        (fun rds => if typeMatch rds.rdtype t then rds.rdatas.map (mkRecord origin nm rds) else [])
      = (sets.flatMap fun rds =>
          if typeMatch rds.rdtype t then rds.rdatas.map (mkRecord origin nm rds) else []).map
          fun s => { s with rdata := f s.name s.rdtype s.rdata } := by
  induction sets with
  | nil => rfl
  | cons rds rest ih =>
    simp only [List.map_cons, List.flatMap_cons, List.map_append, ih]
    congr 1
    by_cases ht : typeMatch rds.rdtype t
    · simp only [if_pos ht, List.map_map]
      exact List.map_congr_left fun rd _ => rfl
    · simp only [if_neg ht, List.map_nil]

/-- Zone-level form of the rdata map underlying `incrementSerial`. -/
theorem records_map_nodes (origin t : String) (f : String → String → Rdata → Rdata)
    (nodes : List (String × Node)) :
    (nodes.map fun p =>
        (p.1, Node.mk (p.2.rdatasets.map fun rds =>
          { rds with rdatas := rds.rdatas.map (f p.1 rds.rdtype) }))).flatMap
        (fun p => p.2.rdatasets.flatMap fun rds =>
          if typeMatch rds.rdtype t then rds.rdatas.map (mkRecord origin p.1 rds) else [])
      = (nodes.flatMap fun p => p.2.rdatasets.flatMap fun rds =>
          if typeMatch rds.rdtype t then rds.rdatas.map (mkRecord origin p.1 rds) else []).map
          fun s => { s with rdata := f s.name s.rdtype s.rdata } := by
  induction nodes with
  | nil => rfl
  | cons p rest ih =>
    simp only [List.map_cons, List.flatMap_cons, List.map_append, ih]
    congr 1
    exact records_map_node origin p.1 t f p.2.rdatasets

/-- `get_records` of a mapped zone is the map of the views. -/
theorem get_records_mapRdatas (z : Zone) (f : String → String → Rdata → Rdata) (t : String) :
    (z.mapRdatas f).get_records t
      = (z.get_records t).map fun s => { s with rdata := f s.name s.rdtype s.rdata } :=
  records_map_nodes z.origin t f z.nodes

/-- A `head?` hit is a member. -/
theorem head?_mem {α : Type} {l : List α} {a : α} (h : l.head? = some a) : a ∈ l := by
  cases l with
  | nil => cases h
  | cons x rest =>
    simp only [List.head?_cons, Option.some.injEq] at h
    rw [← h]
    exact List.mem_cons_self x rest

/-- A record produced for the "soa" query has set type "SOA". -/
theorem soa_query_rdtype {st : String} (h : typeMatch st "soa" = true) : st = "SOA" := by
  have h1 : rdatatypeFromText "soa" = some "SOA" := by decide
  have h2 : (strUpper "soa" == "ANY") = false := by decide
  rw [typeMatch, h1, h2, Bool.or_false] at h
  have := of_decide_eq_true (by simpa using h)
  exact this.symm

/-- The zone's SOA record view has record type "SOA". -/
theorem soaRecord_rdtype {z : Zone} {r : Record} (h : z.soaRecord = some r) :
    r.rdtype = "SOA" := by
  have hmem : r ∈ z.get_records "soa" := head?_mem h
  rcases mem_get_records.mp hmem with ⟨nm, node, rds, rd, _, _, _, ht, rfl⟩
  exact soa_query_rdtype ht

/-! ## lookupNode lemmas -/

/-- Looking up the updated name after a per-name node map. -/
theorem lookupNode_map_updateAt (nodes : List (String × Node)) (nm : String) (f : Node → Node) :
    lookupNode (nodes.map fun p => if p.1 = nm then (p.1, f p.2) else p) nm
      = (lookupNode nodes nm).map f := by
  induction nodes with
  | nil => rfl
  | cons p rest ih =>
    simp only [List.map_cons]
    by_cases hm : p.1 = nm
    · rw [if_pos hm]
      unfold lookupNode
      rw [List.find?_cons_of_pos _ (by simp [hm]), List.find?_cons_of_pos _ (by simp [hm])]
      rfl
    · rw [if_neg hm]
      unfold lookupNode
      rw [List.find?_cons_of_neg _ (by simp [hm]), List.find?_cons_of_neg _ (by simp [hm])]
      exact ih

/-- A deleted node no longer resolves. -/
theorem lookupNode_filter_self (nodes : List (String × Node)) (nm : String) :
    lookupNode (nodes.filter fun p => p.1 != nm) nm = none := by
  unfold lookupNode
  rw [List.find?_eq_none.mpr]
  · rfl
  · intro q hq
    have h2 := (List.mem_filter.mp hq).2
    simp only [bne_iff_ne, ne_eq] at h2
    simpa using h2

/-! ## Claim C5 -/

/-- C5: `checksum` is a deterministic function of its input and size
implementing Fletcher's checksum with little-endian block packing, zero
padding of the final block, and sums modulo `2^(size/2) - 1` (it agrees
with the spec-side `fletcherSpec` on byte-valued input), and it
reproduces exactly: checksum("abcde",16) = "c8f0", checksum("abcde",32)
= "f04fc729", checksum("abcde",64) = "c8c6c527646362c6". -/
theorem C5_checksum_fletcher :
    (∀ (word : String) (size : Nat), (∀ c ∈ word.data, c.toNat < 256) →
        size = 16 ∨ size = 32 ∨ size = 64 →
        checksum word size = some (fletcherSpec word size))
      ∧ checksum "abcde" 16 = some "c8f0"
      ∧ checksum "abcde" 32 = some "f04fc729"
      ∧ checksum "abcde" 64 = some "c8c6c527646362c6" := by
  refine ⟨fun word size hb hs => ?_, by decide, by decide, by decide⟩
  rw [checksum, if_pos hs]
  exact congrArg some (checksumCore_eq_fletcherSpec word size hb hs)

/-- Witness for C5 at the concrete input "abcde" / 32. -/
theorem C5_checksum_fletcher_witness :
    checksum "abcde" 32 = some (fletcherSpec "abcde" 32) :=
  C5_checksum_fletcher.1 "abcde" 32 (by decide) (by decide)

/-! ## Claim C9 -/

/-- C9: `find_record` returns exactly the records of the given type
matching the (relativized) name filter and the content filter (quoted
for TXT) where supplied: a record is in the result iff it is in
`get_records rdtype` and matches each truthy filter; with both filters
omitted every record of the type is returned; and a truthy TXT content
filter is wrapped in double quotes before comparison. -/
theorem C9_find_record_filter (z : Zone) (rdtype : String) (name content : Option String)
    (r : Record) :
    (r ∈ z.find_record rdtype name content ↔
      r ∈ z.get_records rdtype
        ∧ (truthy (z.findNameArg name) = true → z.findNameArg name = some r.name)
        ∧ (truthy (findContentArg rdtype content) = true →
            findContentArg rdtype content = some r.content))
      ∧ z.find_record rdtype none none = z.get_records rdtype
      ∧ (∀ c : String, (c == "") = false →
          findContentArg "TXT" (some c) = some ("\"" ++ c ++ "\"")) := by
  refine ⟨?_, ?_, ?_⟩
  · have key : ∀ s : Record,
        ((z.findNameArg name == some s.name && findContentArg rdtype content == some s.content)
          || (z.findNameArg name == some s.name && !truthy (findContentArg rdtype content))
          || (findContentArg rdtype content == some s.content && !truthy (z.findNameArg name))
          || (!truthy (z.findNameArg name) && !truthy (findContentArg rdtype content))) = true
        ↔ ((truthy (z.findNameArg name) = true → z.findNameArg name = some s.name)
            ∧ (truthy (findContentArg rdtype content) = true →
                findContentArg rdtype content = some s.content)) := by
      intro s
      cases hn : truthy (z.findNameArg name) <;>
        cases hc : truthy (findContentArg rdtype content) <;>
          simp [hn, hc, beq_iff_eq] <;> tauto
    rw [Zone.find_record, List.mem_filter]
    exact and_congr_right fun _ => key r
  · have hc : findContentArg rdtype none = none := by
      simp [findContentArg, truthy]
    rw [Zone.find_record]
    have hn : z.findNameArg none = none := rfl
    rw [hn, hc]
    simp [truthy]
  · intro c hcne
    have ht : (strUpper "TXT" == "TXT") = true := by decide
    simp [findContentArg, truthy, ht, hcne]

/-- Witness for C9: the TXT content filter "hi" is quoted, and searching
the fixture by relativized name and quoted content finds the record. -/
theorem C9_find_record_filter_witness :
    findContentArg "TXT" (some "hi") = some ("\"" ++ "hi" ++ "\"")
      ∧ zC9.find_record "TXT" none none = zC9.get_records "TXT" :=
  ⟨(C9_find_record_filter zC9 "TXT" (some "greeting") (some "hi") recC9).2.2 "hi" (by decide),
    (C9_find_record_filter zC9 "TXT" none none recC9).2.1⟩

/-! ## Claim C3 -/

/-- C3: `save` with autoserial on a zone with an SOA record sets the SOA
serial to the date candidate `YYYYMMDD * 100` when that candidate
exceeds the prior serial, and to the prior serial plus one otherwise;
in both cases the serial strictly increases. -/
theorem C3_save_autoserial (z : Zone) (dateNum s : Nat) (hs : z.soaSerial = some s) :
    ∃ z', z.save dateNum true = some z'
      ∧ z'.soaSerial = some (if dateNum * 100 ≤ s then s + 1 else dateNum * 100)
      ∧ s < (if dateNum * 100 ≤ s then s + 1 else dateNum * 100) := by
  unfold Zone.soaSerial at hs
  rcases hr : z.soaRecord with _ | r
  · rw [hr] at hs
    simp at hs
  · rw [hr] at hs
    simp only [Option.some_bind] at hs
    rcases hd : r.rdata with d | txt
    · rw [hd] at hs
      simp only [Option.some.injEq] at hs
      refine ⟨z.mapRdatas fun nm setType x =>
          if nm = r.name ∧ setType = "SOA" ∧ x = r.rdata then
            Rdata.soa { d with serial := incrementSerialNum dateNum d.serial } else x,
        ?_, ?_, ?_⟩
      · simp only [Zone.save, if_true, Zone.incrementSerial, hr, hd]
      · have hmap := get_records_mapRdatas z
          (fun nm setType x =>
            if nm = r.name ∧ setType = "SOA" ∧ x = r.rdata then
              Rdata.soa { d with serial := incrementSerialNum dateNum d.serial } else x) "soa"
        unfold Zone.soaSerial Zone.soaRecord
        rw [hmap, List.head?_map]
        have hr' : (z.get_records "soa").head? = some r := hr
        rw [hr']
        simp only [Option.map_some']
        have hcond : r.name = r.name ∧ r.rdtype = "SOA" ∧ r.rdata = r.rdata :=
          ⟨rfl, soaRecord_rdtype hr, rfl⟩
        simp only [Option.some_bind, if_pos hcond]
        rw [hs]
        have hsoa : r.rdtype = "SOA" := soaRecord_rdtype hr
        simp [incrementSerialNum, hsoa]
      · split <;> omega
    · rw [hd] at hs
      simp at hs

/-- Witness for C3 on the fixture zone, with date 2026-01-01 whose
candidate 2026010100 exceeds the stored serial 2020010100. -/
theorem C3_save_autoserial_witness :
    ∃ z', zC3.save 20260101 true = some z'
      ∧ z'.soaSerial = some (if 20260101 * 100 ≤ 2020010100 then 2020010100 + 1
          else 20260101 * 100)
      ∧ 2020010100 < (if 20260101 * 100 ≤ 2020010100 then 2020010100 + 1
          else 20260101 * 100) :=
  C3_save_autoserial zC3 20260101 2020010100 (by decide)

/-! ## Claim C2 -/

/-- C2: `remove_record` implements exactly the three described branches
on the updated set and node: with cascade, when the record-set became
empty and was the node's only one the whole node is deleted; when it
became empty but the node holds other record-sets only the emptied set
is deleted and the rest of the node survives; when the set is still
nonempty, and always without cascade, set and node are left in place. -/
theorem C2_remove_record_cascade (z : Zone) (hid : String) (cascade : Bool) (r : Record)
    (node : Node) (hget : z.get_record hid = some r)
    (hn : lookupNode z.nodes r.name = some node) :
    ∃ z', z.remove_record hid cascade = .ok z'
      ∧ (cascade = true → ∀ rds1,
          (Node.mk (eraseRdInSets node.rdatasets r.rdtype r.rdata)).findSet r.rdtype
              = some rds1 →
          ((rds1.rdatas = [] ∧ (eraseRdInSets node.rdatasets r.rdtype r.rdata).length = 1 →
              lookupNode z'.nodes r.name = none)
            ∧ (rds1.rdatas = [] ∧ (eraseRdInSets node.rdatasets r.rdtype r.rdata).length ≠ 1 →
                lookupNode z'.nodes r.name = some
                    ((Node.mk (eraseRdInSets node.rdatasets r.rdtype r.rdata)).deleteSet r.rdtype)
                  ∧ ((Node.mk (eraseRdInSets node.rdatasets r.rdtype r.rdata)).deleteSet
                      r.rdtype).rdatasets ≠ [])
            ∧ (rds1.rdatas ≠ [] →
                lookupNode z'.nodes r.name
                  = some (Node.mk (eraseRdInSets node.rdatasets r.rdtype r.rdata)))))
      ∧ (cascade = false →
          lookupNode z'.nodes r.name
            = some (Node.mk (eraseRdInSets node.rdatasets r.rdtype r.rdata))) := by
  have hlk1 := lookupNode_map_updateAt z.nodes r.name
    fun node => Node.mk (eraseRdInSets node.rdatasets r.rdtype r.rdata)
  rw [hn] at hlk1
  simp only [Option.map_some'] at hlk1
  refine ⟨z.removeRecordAux r cascade, ?_, ?_, ?_⟩
  · simp only [Zone.remove_record, hget]
  · intro hcas rds1 hfs
    subst hcas
    have hfs' : List.find? (fun s => s.rdtype == r.rdtype)
        (eraseRdInSets node.rdatasets r.rdtype r.rdata) = some rds1 := hfs
    refine ⟨?_, ?_, ?_⟩
    · rintro ⟨hemp, hlen⟩
      have hempb : rds1.rdatas.isEmpty = true := by simp [hemp]
      show lookupNode (removeNodes z.nodes r true) r.name = none
      simp only [removeNodes, if_true, hlk1, Node.findSet, hfs']
      rw [if_pos ⟨hempb, hlen⟩]
      exact lookupNode_filter_self _ _
    · rintro ⟨hemp, hlen⟩
      have hempb : rds1.rdatas.isEmpty = true := by simp [hemp]
      show lookupNode (removeNodes z.nodes r true) r.name = _ ∧ _
      simp only [removeNodes, if_true, hlk1, Node.findSet, hfs']
      rw [if_neg fun hcon => hlen hcon.2, if_pos hempb]
      have hlk2 := lookupNode_map_updateAt
        (z.nodes.map fun p =>
          if p.1 = r.name then (p.1, Node.mk (eraseRdInSets p.2.rdatasets r.rdtype r.rdata)) else p)
        r.name fun node => node.deleteSet r.rdtype
      rw [hlk1] at hlk2
      simp only [Option.map_some'] at hlk2
      have hmem1 : rds1 ∈ eraseRdInSets node.rdatasets r.rdtype r.rdata :=
        List.mem_of_find?_eq_some hfs'
      have hpos : 0 < (eraseRdInSets node.rdatasets r.rdtype r.rdata).length :=
        List.length_pos.mpr (List.ne_nil_of_mem hmem1)
      have hne : ((Node.mk (eraseRdInSets node.rdatasets r.rdtype r.rdata)).deleteSet
          r.rdtype).rdatasets ≠ [] := by
        simp only [Node.deleteSet]
        have hlep := @List.length_eraseP Rdataset (fun s => s.rdtype == r.rdtype)
          (eraseRdInSets node.rdatasets r.rdtype r.rdata)
        intro hnil
        rw [hnil] at hlep
        simp only [List.length_nil] at hlep
        split at hlep <;> omega
      simp only [deleteRdatasetNodes, hlk2]
      rw [if_neg (by simpa using hne)]
      exact ⟨hlk2, hne⟩
    · intro hne
      show lookupNode (removeNodes z.nodes r true) r.name = _
      simp only [removeNodes, if_true, hlk1, Node.findSet, hfs']
      rw [if_neg fun hcon => hne (List.isEmpty_iff.mp hcon.1),
        if_neg fun hcon => hne (List.isEmpty_iff.mp hcon)]
      exact hlk1
  · intro hcas
    subst hcas
    show lookupNode (removeNodes z.nodes r false) r.name = _
    simp only [removeNodes, Bool.false_eq_true, if_false]
    exact hlk1

/-- Witness for C2 on `zC2`, exercising the node-deletion branch. -/
theorem C2_remove_record_cascade_witness :
    ∃ z', zC2.remove_record recC2.hashid true = .ok z'
      ∧ (true = true → ∀ rds1,
          (Node.mk (eraseRdInSets nodeC2.rdatasets recC2.rdtype recC2.rdata)).findSet
              recC2.rdtype = some rds1 →
          ((rds1.rdatas = []
              ∧ (eraseRdInSets nodeC2.rdatasets recC2.rdtype recC2.rdata).length = 1 →
              lookupNode z'.nodes recC2.name = none)
            ∧ (rds1.rdatas = []
                ∧ (eraseRdInSets nodeC2.rdatasets recC2.rdtype recC2.rdata).length ≠ 1 →
                lookupNode z'.nodes recC2.name = some
                    ((Node.mk (eraseRdInSets nodeC2.rdatasets recC2.rdtype
                        recC2.rdata)).deleteSet recC2.rdtype)
                  ∧ ((Node.mk (eraseRdInSets nodeC2.rdatasets recC2.rdtype
                      recC2.rdata)).deleteSet recC2.rdtype).rdatasets ≠ [])
            ∧ (rds1.rdatas ≠ [] →
                lookupNode z'.nodes recC2.name
                  = some (Node.mk (eraseRdInSets nodeC2.rdatasets recC2.rdtype recC2.rdata)))))
      ∧ (true = false →
          lookupNode z'.nodes recC2.name
            = some (Node.mk (eraseRdInSets nodeC2.rdatasets recC2.rdtype recC2.rdata))) :=
  C2_remove_record_cascade zC2 recC2.hashid true recC2 nodeC2 (by decide) (by decide)

/-! ## Shared facts about a successful add_record -/

/-- Field contract of the record a successful `add_record` returns: name
relativized, type and class as converted, content as parsed by the
codec, and the TTL given by `addTtlSpec`. -/
theorem add_record_fields {z : Zone} {codec : Codec} {name rdtype content rdclass : String}
    {ttl : Option Nat} {z2 : Zone} {r2 : Record}
    (h : z.add_record codec name rdtype content rdclass ttl = .ok (z2, r2)) :
    r2.origin = z.origin ∧ r2.name = relName name z.origin
      ∧ rdatatypeFromText rdtype = some r2.rdtype
      ∧ rdclassFromText rdclass = some r2.rdclass
      ∧ codec.parse r2.rdclass r2.rdtype content z.origin = some r2.rdata
      ∧ r2.ttl = addTtlSpec z (relName name z.origin) r2.rdclass r2.rdtype
          (z.effectiveTtl ttl) := by
  rcases add_record_ok h with ⟨cU, tU, rd, hc, ht, hp, hz2, hr2⟩
  subst hr2
  have hfields := addToNodes_fields z.nodes (relName name z.origin) cU tU rd (z.effectiveTtl ttl)
  refine ⟨rfl, rfl, ?_, ?_, ?_, ?_⟩
  · exact ht.trans (congrArg some hfields.2.2.symm)
  · exact hc.trans (congrArg some hfields.2.1.symm)
  · show codec.parse
      (addToNodes z.nodes (relName name z.origin) cU tU rd (z.effectiveTtl ttl)).2.rdclass
      (addToNodes z.nodes (relName name z.origin) cU tU rd (z.effectiveTtl ttl)).2.rdtype
      content z.origin = some rd
    rw [hfields.2.1, hfields.2.2]
    exact hp
  · show (addToNodes z.nodes (relName name z.origin) cU tU rd (z.effectiveTtl ttl)).2.ttl
      = addTtlSpec z (relName name z.origin)
          (addToNodes z.nodes (relName name z.origin) cU tU rd (z.effectiveTtl ttl)).2.rdclass
          (addToNodes z.nodes (relName name z.origin) cU tU rd (z.effectiveTtl ttl)).2.rdtype
          (z.effectiveTtl ttl)
    rw [hfields.2.1, hfields.2.2, addToNodes_ttl]
    simp only [addTtlSpec, Zone.lookupSetFor]

/-! ## Claim C7 -/

/-- C7 (amended): a successful `add_record` followed by `get_record` on
the returned record's hashid succeeds — provided no distinct record of
the updated zone shares that hashid — and the returned record's name
(relativized to the origin), type, class and canonicalized content equal
the inputs; its TTL is the effective TTL (input, or the zone default
when omitted) only when the target record-set is new or empty, and the
minimum of the existing set TTL and the effective TTL otherwise. -/
theorem C7_add_then_get (z : Zone) (codec : Codec) (name rdtype content rdclass : String)
    (ttl : Option Nat) (z2 : Zone) (r2 : Record)
    (h : z.add_record codec name rdtype content rdclass ttl = .ok (z2, r2)) :
    r2.origin = z.origin ∧ r2.name = relName name z.origin
      ∧ rdatatypeFromText rdtype = some r2.rdtype
      ∧ rdclassFromText rdclass = some r2.rdclass
      ∧ codec.parse r2.rdclass r2.rdtype content z.origin = some r2.rdata
      ∧ r2.ttl = addTtlSpec z (relName name z.origin) r2.rdclass r2.rdtype (z.effectiveTtl ttl)
      ∧ ((∀ s ∈ z2.records, s.hashid = r2.hashid → s = r2) →
          z2.get_record r2.hashid = some r2) := by
  have hf := add_record_fields h
  exact ⟨hf.1, hf.2.1, hf.2.2.1, hf.2.2.2.1, hf.2.2.2.2.1, hf.2.2.2.2.2,
    fun hu => get_record_of_uniq (add_record_ret_mem h) hu⟩

/-- Counterexample to C7 as stated: adding "5.6.7.8" with TTL 200 to a
node whose A record-set has TTL 100 returns a record with TTL 100, not
the requested 200. -/
theorem C7_counterexample :
    (zC7.add_record plainCodec "w" "A" "5.6.7.8" "IN" (some 200)).toOption.map
        (fun p => p.2.ttl) = some 100
      ∧ (100 : Nat) ≠ 200 := by decide

/-- Witness for C7 on an empty zone. -/
theorem C7_add_then_get_witness :
    recC7w.origin = zC7w.origin ∧ recC7w.name = relName "w" zC7w.origin
      ∧ rdatatypeFromText "A" = some recC7w.rdtype
      ∧ rdclassFromText "IN" = some recC7w.rdclass
      ∧ plainCodec.parse recC7w.rdclass recC7w.rdtype "1.2.3.4" zC7w.origin
          = some recC7w.rdata
      ∧ recC7w.ttl = addTtlSpec zC7w (relName "w" zC7w.origin) recC7w.rdclass recC7w.rdtype
          (zC7w.effectiveTtl none)
      ∧ ((∀ s ∈ zC7wRes.records, s.hashid = recC7w.hashid → s = recC7w) →
          zC7wRes.get_record recC7w.hashid = some recC7w) :=
  C7_add_then_get zC7w plainCodec "w" "A" "1.2.3.4" "IN" none zC7wRes recC7w (by decide)

/-! ## Claim C10 -/

/-- C10 (amended): `add_record` replaces a falsy TTL argument (omitted
or zero) by the zone's default TTL; hence the returned TTL is the
default unless an existing record-set caps it, and a zero TTL can still
result when the zone's default TTL is itself zero — with a nonzero
default and no zero-TTL record-sets the returned TTL is nonzero. -/
theorem C10_add_falsy_ttl (z : Zone) (codec : Codec) (name rdtype content rdclass : String)
    (ttl : Option Nat) (z2 : Zone) (r2 : Record)
    (hfalsy : ttl = none ∨ ttl = some 0)
    (h : z.add_record codec name rdtype content rdclass ttl = .ok (z2, r2)) :
    z.effectiveTtl ttl = z.defaultTtl
      ∧ r2.ttl = addTtlSpec z (relName name z.origin) r2.rdclass r2.rdtype z.defaultTtl
      ∧ (0 < z.defaultTtl → (∀ p ∈ z.nodes, ∀ rds ∈ p.2.rdatasets, 0 < rds.ttl) →
          0 < r2.ttl) := by
  have heff : z.effectiveTtl ttl = z.defaultTtl := by
    rcases hfalsy with rfl | rfl
    · rfl
    · simp [Zone.effectiveTtl]
  have httl : r2.ttl = addTtlSpec z (relName name z.origin) r2.rdclass r2.rdtype
      z.defaultTtl := by
    have := (add_record_fields h).2.2.2.2.2
    rw [heff] at this
    exact this
  refine ⟨heff, httl, fun hd hsets => ?_⟩
  rw [httl]
  unfold addTtlSpec
  cases hsl : z.lookupSetFor (relName name z.origin) r2.rdclass r2.rdtype with
  | none => exact hd
  | some rds =>
    show 0 < if rds.rdatas.isEmpty = true then z.defaultTtl else min rds.ttl z.defaultTtl
    by_cases hemp : rds.rdatas.isEmpty = true
    · rw [if_pos hemp]
      exact hd
    · rw [if_neg hemp]
      have hpos : 0 < rds.ttl := by
        unfold Zone.lookupSetFor at hsl
        cases hln : lookupNode z.nodes (relName name z.origin) with
        | none => rw [hln] at hsl; cases hsl
        | some nodeq =>
          rw [hln] at hsl
          simp only [Option.some_bind] at hsl
          have hrdsmem : rds ∈ nodeq.rdatasets := List.mem_of_find?_eq_some hsl
          unfold lookupNode at hln
          cases hfq : z.nodes.find? fun p => p.1 == relName name z.origin with
          | none => rw [hfq] at hln; cases hln
          | some q =>
            rw [hfq] at hln
            simp only [Option.map_some', Option.some.injEq] at hln
            have hqmem : q ∈ z.nodes := List.mem_of_find?_eq_some hfq
            have := hsets q hqmem rds (by rw [hln]; exact hrdsmem)
            exact this
      exact lt_min hpos hd

/-- Counterexample to C10 as stated: on a zone whose default TTL is 0
(a master file without a $TTL directive), `add_record` with an explicit
ttl of 0 does assign a zero TTL. -/
theorem C10_counterexample :
    (zC10.add_record plainCodec "w" "A" "x" "IN" (some 0)).toOption.map (fun p => p.2.ttl)
      = some 0 := by decide

/-- Witness for C10 on a zone with the nonzero default TTL 3600. -/
theorem C10_add_falsy_ttl_witness :
    zC10w.effectiveTtl (some 0) = zC10w.defaultTtl
      ∧ recC10w.ttl = addTtlSpec zC10w (relName "w" zC10w.origin) recC10w.rdclass
          recC10w.rdtype zC10w.defaultTtl
      ∧ (0 < zC10w.defaultTtl →
          (∀ p ∈ zC10w.nodes, ∀ rds ∈ p.2.rdatasets, 0 < rds.ttl) → 0 < recC10w.ttl) :=
  C10_add_falsy_ttl zC10w plainCodec "w" "A" "x" "IN" (some 0) zC10wRes recC10w
    (Or.inr rfl) (by decide)

/-! ## Claim C6 -/

/-- C6 (amended): the record `update_record` returns keeps the original
record's name, type and class, and its content is the parsed new
content; its TTL, however, is re-derived from the zone default (the set
TTL after re-adding with an omitted TTL into the post-removal zone), not
the original record's TTL. -/
theorem C6_update_preserves (z : Zone) (codec : Codec) (hid content : String) (r r2 : Record)
    (z2 : Zone)
    (hget : z.get_record hid = some r)
    (hupd : z.update_record codec hid content = (.ok r2, z2))
    (hname : relName r.name z.origin = r.name)
    (htype : rdatatypeFromText r.rdtype = some r.rdtype) :
    r2.name = r.name ∧ r2.rdtype = r.rdtype ∧ r2.rdclass = "IN"
      ∧ codec.parse "IN" r.rdtype content z.origin = some r2.rdata
      ∧ r2.ttl = addTtlSpec (z.removeRecordAux r false) r.name "IN" r.rdtype
          z.defaultTtl := by
  simp only [Zone.update_record, hget] at hupd
  split at hupd
  · rename_i res hadd
    obtain ⟨pz, pr⟩ := res
    simp only [Prod.mk.injEq, Except.ok.injEq] at hupd
    obtain ⟨h1, h2⟩ := hupd
    rw [← h1]
    have hf := add_record_fields hadd
    have hty : pr.rdtype = r.rdtype := by
      have := hf.2.2.1
      rw [htype] at this
      exact (Option.some.injEq _ _).mp this |>.symm
    have hcl : pr.rdclass = "IN" := by
      have := hf.2.2.2.1
      rw [show rdclassFromText "IN" = some "IN" from by decide] at this
      exact (Option.some.injEq _ _).mp this |>.symm
    refine ⟨hf.2.1.trans hname, hty, hcl, ?_, ?_⟩
    · have := hf.2.2.2.2.1
      rw [hcl, hty] at this
      exact this
    · have hthis : pr.ttl = addTtlSpec (z.removeRecordAux r false)
          (relName r.name z.origin) pr.rdclass pr.rdtype z.defaultTtl := hf.2.2.2.2.2
      rw [hcl, hty, hname] at hthis
      exact hthis
  · rename_i e hadd
    simp at hupd

/-- Counterexample to C6 as stated: updating the content of a record
whose set TTL is 100 in a zone with default TTL 3600 returns a record
with TTL 3600 — the TTL is not preserved. -/
theorem C6_counterexample :
    (zC6.update_record plainCodec recC6.hashid "9.9.9.9").1 = .ok recC6new
      ∧ (zC6.update_record plainCodec recC6.hashid "9.9.9.9").2 = zC6res
      ∧ recC6.ttl = 100 ∧ recC6new.ttl = 3600 := by decide

/-- Witness for C6 on `zC6`. -/
theorem C6_update_preserves_witness :
    recC6new.name = recC6.name ∧ recC6new.rdtype = recC6.rdtype ∧ recC6new.rdclass = "IN"
      ∧ plainCodec.parse "IN" recC6.rdtype "9.9.9.9" zC6.origin = some recC6new.rdata
      ∧ recC6new.ttl = addTtlSpec (zC6.removeRecordAux recC6 false) recC6.name "IN"
          recC6.rdtype zC6.defaultTtl :=
  C6_update_preserves zC6 plainCodec recC6.hashid "9.9.9.9" recC6 recC6new zC6res
    (by decide) (by decide) (by decide) (by decide)

/-! ## Claim C1 -/

/-- C1 (amended): a successful `update_record` yields a record with a
hashid different from the original's, and the original hashid no longer
resolves, provided no record of the updated zone carries the original
hashid — the proviso fails, and with it the claim, when the update does
not change the record's text (same content and a set TTL equal to the
zone default) or when a Fletcher-32 collision reproduces the hashid. -/
theorem C1_update_new_hashid (z : Zone) (codec : Codec) (hid content : String) (r r2 : Record)
    (z2 : Zone)
    (hget : z.get_record hid = some r)
    (hupd : z.update_record codec hid content = (.ok r2, z2))
    (hcoll : ∀ s ∈ z2.records, s.hashid = r.hashid → False) :
    r2.hashid ≠ r.hashid ∧ z2.get_record r.hashid = none := by
  simp only [Zone.update_record, hget] at hupd
  split at hupd
  · rename_i res hadd
    obtain ⟨pz, pr⟩ := res
    simp only [Prod.mk.injEq, Except.ok.injEq] at hupd
    obtain ⟨h1, h2⟩ := hupd
    subst h2
    rw [← h1]
    have hmem : pr ∈ pz.records := add_record_ret_mem hadd
    refine ⟨fun heq => hcoll pr hmem heq, ?_⟩
    rw [get_record_eq_none]
    exact fun s hs heq => hcoll s hs heq
  · rename_i e hadd
    simp at hupd

/-- Counterexample to C1 as stated: updating a record with its own
content, in a zone whose set TTL equals the default, returns the very
same record view — the hashid is unchanged and still resolves. -/
theorem C1_counterexample :
    (zC1.update_record plainCodec recC1.hashid "1.2.3.4").1 = .ok recC1
      ∧ (zC1.update_record plainCodec recC1.hashid "1.2.3.4").2.get_record recC1.hashid
          = some recC1 := by decide

/-- Witness for C1: updating the content to "5.6.7.8" changes the hashid
and invalidates the old one. -/
theorem C1_update_new_hashid_witness :
    recC1wNew.hashid ≠ recC1w.hashid ∧ zC1wRes.get_record recC1w.hashid = none :=
  C1_update_new_hashid zC1w plainCodec recC1w.hashid "5.6.7.8" recC1w recC1wNew zC1wRes
    (by decide) (by decide) (by decide)

/-! ## Claim C8 -/

/-- C8 (amended): after `remove_record(hashid)`, `get_record(hashid)`
fails with not-found provided no other record of the (well-formed) zone
shares the removed record's hashid; and `get_record` on a hashid carried
by no record fails rather than returning anything.  Without the
collision proviso the first part fails: hashids are Fletcher-32
checksums and two records can share one. -/
theorem C8_remove_then_get (z : Zone) (hid hid2 : String) (cascade : Bool) (r : Record)
    (z2 : Zone)
    (hget : z.get_record hid = some r)
    (hrm : z.remove_record hid cascade = .ok z2)
    (hwf : wfZone z)
    (huniq : ∀ s ∈ z.records, s.hashid = r.hashid → s = r)
    (hnone : ∀ s ∈ z.records, s.hashid ≠ hid2) :
    z2.get_record hid = none ∧ z.get_record hid2 = none := by
  have hhid : r.hashid = hid := by
    have := List.find?_some hget
    simpa using this
  have hz2 : z2 = z.removeRecordAux r cascade := by
    simp only [Zone.remove_record, hget, Except.ok.injEq] at hrm
    exact hrm.symm
  subst hz2
  constructor
  · rw [get_record_eq_none]
    intro s hs heq
    have hsz : s ∈ z.records := records_removeAux_sub z r cascade s hs
    have hseq : s = r := huniq s hsz (heq.trans hhid.symm)
    subst hseq
    exact self_not_mem_removeAux z s cascade hwf hs
  · rw [get_record_eq_none]
    exact hnone

/-- Counterexample to C8 as stated: `zC8` holds two distinct records
whose texts are a Fletcher-32 collision; removing by the shared hashid
removes only the first, and `get_record` on that hashid still
succeeds. -/
theorem C8_counterexample :
    recC8a ∈ zC8.records ∧ recC8b ∈ zC8.records ∧ recC8a ≠ recC8b
      ∧ recC8a.hashid = recC8b.hashid
      ∧ (zC8.remove_record recC8a.hashid true).toOption.map
          (fun z2 => (z2.get_record recC8a.hashid).isSome) = some true := by decide

/-- Witness for C8 on a collision-free zone. -/
theorem C8_remove_then_get_witness :
    zC8wRes.get_record recC8w.hashid = none ∧ zC8w.get_record "ffffffff" = none :=
  C8_remove_then_get zC8w recC8w.hashid "ffffffff" true recC8w zC8wRes
    (by decide) (by decide) (by decide) (by decide) (by decide)

/-! ## Claim C4 -/

/-- C4: the code is not atomic on a failed update.  At the concrete
failing input — a zone holding one A record, updated with content the
codec rejects — `update_record` raises the malformed-content error, yet
the original record (resolvable before the call) is gone: the zone ends
with no records at all, contradicting the required unchanged state. -/
theorem C4_update_not_atomic :
    (zC4.update_record badCodec recC4.hashid "BAD").1 = .error .malformedContent
      ∧ zC4.get_record recC4.hashid = some recC4
      ∧ (zC4.update_record badCodec recC4.hashid "BAD").2.get_record recC4.hashid = none
      ∧ (zC4.update_record badCodec recC4.hashid "BAD").2.records = [] := by decide

end Localzone
